import Mathlib

/-!
Verification development for the shopos-video-scene-detector repository.

The batch enrichment orchestrator (`handleBatchAnalyze` in the
`BatchGeminiAnalysis` component), the CSV/JSON export canonicalization
(`generateAndDownloadCSV`, `exportToCSV`, `JsonOutput`) and the result merge
(`handleBatchAnalysisComplete` in `App`) are shallowly embedded below.

Modelling conventions:
* JavaScript numbers that the code manipulates as decimal literals are
  modelled exactly as scaled decimals `JNum` (mantissa / 10 ^ exponent);
  the floating-point representation is abstracted to exact arithmetic.
* The network is an oracle: each item of a batch carries a `StageEnv`
  giving the responses of the three stage endpoints for that item.
* Observable effects (stage calls, progress updates, auto-save exports,
  the final completion callback) are recorded as an ordered `Event` trace.
-/

/-- A JavaScript number written as a finite decimal: `m / 10 ^ e`. -/
structure JNum where
  m : Int
  e : Nat
deriving DecidableEq

/-- The rational value of a `JNum`. -/
def JNum.toRat (n : JNum) : ℚ := (n.m : ℚ) / (10 : ℚ) ^ n.e

/-- Canonical decimal representation: no trailing zero digit in the fraction.
JavaScript stores one canonical float per value, so the embedding of a JS
number is always canonical. -/
def JNum.Canonical (n : JNum) : Prop := n.e = 0 ∨ ¬ ((10 : Int) ∣ n.m)

instance (n : JNum) : Decidable n.Canonical := by
  unfold JNum.Canonical; infer_instance

/-- Structural base-10 digit extraction (least significant first) with fuel,
mirroring `Nat.digits` but kernel-reducible. -/
def digitsFuel : Nat → Nat → List Nat
  | _, 0 => []
  | 0, _ + 1 => []
  | fuel + 1, n + 1 => (n + 1) % 10 :: digitsFuel fuel ((n + 1) / 10)

/-- Base-10 digits of a natural number, least significant first. -/
def natDigits (n : Nat) : List Nat := digitsFuel n n

/-- Clip record of the output JSON: `{ index, duration, required }`. -/
structure Clip where
  index : JNum
  duration : JNum
  required : Bool
deriving DecidableEq

/-- Transition record: `{ type, duration, between_clips }`. -/
structure Transition where
  type : String
  duration : JNum
  between_clips : JNum × JNum
deriving DecidableEq

/-- Scene datum: `{ scene_index, frame_preview }`. -/
structure SceneData where
  scene_index : JNum
  frame_preview : String
deriving DecidableEq

/-- The `OutputJson` interface of `types.ts`. -/
structure OutputJson where
  name : String
  clips : List Clip
  transitions : List Transition
  logo_outro : Bool
  music_file : String
  fade_in_duration : JNum
  fade_out_duration : JNum
  scenes : Option (List SceneData)
  vibe_description : Option String
  image_prompts : Option (List String)
  video_prompt : Option String
deriving DecidableEq

/-- The `File` object, reduced to the only observable the code reads:
`file.size` (history placeholders have size 0). -/
structure FileRef where
  size : Nat
deriving DecidableEq

/-- The `VideoResult` interface of `types.ts`. -/
structure VideoResult where
  id : String
  videoName : String
  jsonData : OutputJson
  file : FileRef
deriving DecidableEq

/-- The `HistoryItem` interface of `types.ts`. -/
structure HistoryItem where
  id : String
  timestamp : Nat
  videoName : String
  jsonData : OutputJson
deriving DecidableEq

/-- One per-video analysis produced by the batch
(`{ resultId, vibe, imagePrompts, videoPrompt }`). -/
structure Analysis where
  resultId : String
  vibe : String
  imagePrompts : List String
  videoPrompt : String
deriving DecidableEq

/-- A `FailedVideo` record: `{ videoName, reason }`. -/
structure FailureRecord where
  videoName : String
  reason : String
deriving DecidableEq

/-- JavaScript truthiness of an optional string: `undefined` and `""` are
falsy (`!vibeData.vibe_extraction`). -/
def jsFalsyStr : Option String → Bool
  | none => true
  | some s => s.isEmpty

/-- JavaScript `o || d` on an optional string field. -/
def jsOrD : Option String → String → String
  | none, d => d
  | some s, d => if s.isEmpty then d else s

/-- Response of the vibe-extraction endpoint, plus the transport status
(`ok` is `response.ok`; on `!ok` the `error` field models the parsed
`errorData.error`). -/
structure VibeResp where
  ok : Bool
  failed : Bool
  vibe_extraction : Option String
  error : Option String
deriving DecidableEq

/-- Response of the image-prompts endpoint. -/
structure PromptsResp where
  ok : Bool
  image_prompts : List String
  error : Option String
deriving DecidableEq

/-- Response of the video-prompt endpoint. -/
structure VideoPromptResp where
  ok : Bool
  video_prompt : String
  error : Option String
deriving DecidableEq

/-- The network oracle for one item: what each endpoint would answer. -/
structure StageEnv where
  vibe : VibeResp
  prompts : PromptsResp
  vprompt : VideoPromptResp
deriving DecidableEq

/-- The three pipeline stages. -/
inductive Stage where
  | vibe
  | imagePrompts
  | videoPrompt
deriving DecidableEq

/-- Outcome of driving one item through the three stages. -/
inductive ItemOutcome where
  | success (a : Analysis)
  | softFail (reason : String)
  | hardFail (reason : String)
deriving DecidableEq

/-- One item of the per-item pipeline of `handleBatchAnalyze` (lines
90-208 of the component): the list of stage calls actually issued,
paired with the outcome.  Mirrors the source faithfully: a non-ok vibe
response throws (hard failure) with the thrown message; a 2xx response
with `failed` truthy or falsy `vibe_extraction` is the soft-failure
branch; the image-prompts payload is forwarded to the video-prompt stage
and stored with NO length validation against the scene count. -/
def processItem (v : VideoResult) (env : StageEnv) :
    List (String × Stage) × ItemOutcome :=
  let callV := [(v.videoName, Stage.vibe)]
  if env.vibe.ok = false then
    (callV, .hardFail ("Failed to extract vibe for " ++ v.videoName ++ ": " ++
      jsOrD env.vibe.error "Unknown error"))
  else if env.vibe.failed = true ∨ jsFalsyStr env.vibe.vibe_extraction = true then
    (callV, .softFail (jsOrD env.vibe.error "API returned no content"))
  else
    let callI := callV ++ [(v.videoName, Stage.imagePrompts)]
    if env.prompts.ok = false then
      (callI, .hardFail ("Failed to generate image prompts for " ++ v.videoName ++
        ": " ++ jsOrD env.prompts.error "Unknown error"))
    else
      let callP := callI ++ [(v.videoName, Stage.videoPrompt)]
      if env.vprompt.ok = false then
        (callP, .hardFail ("Failed to generate video prompt for " ++ v.videoName ++
          ": " ++ jsOrD env.vprompt.error "Unknown error"))
      else
        (callP, .success
          { resultId := v.id
            vibe := env.vibe.vibe_extraction.getD ""
            imagePrompts := env.prompts.image_prompts
            videoPrompt := env.vprompt.video_prompt })

/-- The `updatedResult` built on the success path: the video with the three
enrichment fields overwritten. -/
def applyAnalysis (v : VideoResult) (a : Analysis) : VideoResult :=
  { v with jsonData :=
    { v.jsonData with
        vibe_description := some a.vibe
        image_prompts := some a.imagePrompts
        video_prompt := some a.videoPrompt } }

/-- Observable events of a batch run, in emission order. -/
inductive Event where
  | stageCall (videoName : String) (stage : Stage)
  | progressEv (count : Nat) (pct : Nat)
  | autoSave (count : Nat) (payload : List VideoResult)
  | completeEv (analyses : List Analysis)
deriving DecidableEq

/-- The mutable state of `handleBatchAnalyze` during the loop:
`allAnalyses`, `analyzedResults`, `failures`, `processedCount`,
`progress`, plus the event trace. -/
structure BatchState where
  allAnalyses : List Analysis
  analyzedResults : List VideoResult
  failures : List FailureRecord
  processedCount : Nat
  progress : Nat
  events : List Event
deriving DecidableEq

/-- The initial state set up before the loop. -/
def initState : BatchState :=
  { allAnalyses := [], analyzedResults := [], failures := []
    processedCount := 0, progress := 0, events := [] }

/-! ### IEEE-754 binary64 model of the progress computation

The source computes `Math.floor((videoNumber / totalVideos) * 100)` in
JavaScript doubles.  Both operands of the division are small integers
(exactly representable); the division and the multiplication by 100 are
each correctly rounded to 53 significand bits (round to nearest, ties to
even), and `Math.floor` is exact.  The model below computes the rounded
values exactly with integer arithmetic: a double is carried as a pair
`(m, z)` of significand and exponent with value `m * 2 ^ (z - 52)`.
All inputs of interest are positive normal numbers, far from the
subnormal and overflow ranges. -/

/-- Round `p / q` (with `q > 0`) to the nearest integer, ties to even. -/
def divRoundNE (p q : Nat) : Nat :=
  let d := p / q
  let r := p % q
  if 2 * r < q then d
  else if q < 2 * r then d + 1
  else if d % 2 = 0 then d else d + 1

/-- Fuelled floor of `log2`, kernel-reducible. -/
def natLog2F : Nat → Nat → Nat
  | _, 0 => 0
  | _, 1 => 0
  | 0, _ + 2 => 0
  | fuel + 1, n + 2 => natLog2F fuel ((n + 2) / 2) + 1

/-- `⌊log2 n⌋` for `n ≥ 1`. -/
def natLog2 (n : Nat) : Nat := natLog2F n n

/-- `⌊log2 (a / b)⌋` for `a, b ≥ 1`: the unique `z` with
`2 ^ z ≤ a / b < 2 ^ (z + 1)`. -/
def ratLog2 (a b : Nat) : Int :=
  let z0 : Int := (natLog2 a : Int) - (natLog2 b : Int)
  if 0 ≤ z0 then (if 2 ^ z0.toNat * b ≤ a then z0 else z0 - 1)
  else (if b ≤ 2 ^ (-z0).toNat * a then z0 else z0 - 1)

/-- Correctly rounded binary64 value of `a / b` (`a, b ≥ 1`), as a
significand-exponent pair `(m, z)` of value `m * 2 ^ (z - 52)`. -/
def roundRatD (a b : Nat) : Nat × Int :=
  (if 0 ≤ (52 : Int) - ratLog2 a b then
      divRoundNE (a * 2 ^ ((52 : Int) - ratLog2 a b).toNat) b
    else divRoundNE a (b * 2 ^ (ratLog2 a b - 52).toNat),
   ratLog2 a b)

/-- The rational value of a significand-exponent pair. -/
def dval (mz : Nat × Int) : ℚ := (mz.1 : ℚ) * (2 : ℚ) ^ (mz.2 - 52)

/-- The double `videoNumber / totalVideos`. -/
def jsDivD (a b : Nat) : Nat × Int := roundRatD a b

/-- The double `x * 100` for a double `x = m * 2 ^ (z - 52)`: the product
is the exact rational `m * 100 * 2 ^ (z - 52)`, rounded once more. -/
def jsMul100D (mz : Nat × Int) : Nat × Int :=
  if 0 ≤ (52 : Int) - mz.2 then
    roundRatD (mz.1 * 100) (2 ^ ((52 : Int) - mz.2).toNat)
  else roundRatD (mz.1 * 100 * 2 ^ (mz.2 - 52).toNat) 1

/-- `Math.floor` of a nonnegative double, exact. -/
def jsFloorD (mz : Nat × Int) : Nat :=
  if 0 ≤ mz.2 - 52 then mz.1 * 2 ^ (mz.2 - 52).toNat
  else mz.1 / 2 ^ ((52 : Int) - mz.2).toNat

/-- `Math.floor((k / total) * 100)` computed in binary64, exactly as the
source does.  The `k = 0` and `total = 0` guards are outside the reachable
inputs (the loop always has `1 ≤ k ≤ total`); `k = 0` would give 0 in JS
as well. -/
def jsFloorPct (k total : Nat) : Nat :=
  if k = 0 ∨ total = 0 then 0
  else jsFloorD (jsMul100D (jsDivD k total))

/-- One iteration of the loop body for the item with 1-based position `k`
out of `total`.  On success the analysis and updated result are pushed and
an auto-save fires iff `k % 5 = 0 ∨ k = total` (lines 184-193); on either
failure kind a failure record is pushed and no auto-save fires (lines
110-122 and 195-208).  Progress is `Math.floor((k / total) * 100)` in
binary64 arithmetic, modelled exactly by `jsFloorPct`. -/
def stepItem (total k : Nat) (ve : VideoResult × StageEnv) (s : BatchState) :
    BatchState :=
  let r := processItem ve.1 ve.2
  let callEvs := r.1.map (fun c => Event.stageCall c.1 c.2)
  match r.2 with
  | .success a =>
      let analyzed := s.analyzedResults ++ [applyAnalysis ve.1 a]
      let evs := s.events ++ callEvs ++ [Event.progressEv k (jsFloorPct k total)]
      { allAnalyses := s.allAnalyses ++ [a]
        analyzedResults := analyzed
        failures := s.failures
        processedCount := k
        progress := jsFloorPct k total
        events := if k % 5 = 0 ∨ k = total then
            evs ++ [Event.autoSave k analyzed] else evs }
  | .softFail reason =>
      { s with
        failures := s.failures ++ [⟨ve.1.videoName, reason⟩]
        processedCount := k
        progress := jsFloorPct k total
        events := s.events ++ callEvs ++ [Event.progressEv k (jsFloorPct k total)] }
  | .hardFail reason =>
      { s with
        failures := s.failures ++ [⟨ve.1.videoName, reason⟩]
        processedCount := k
        progress := jsFloorPct k total
        events := s.events ++ callEvs ++ [Event.progressEv k (jsFloorPct k total)] }

/-- The sequential loop, processing `items` at 1-based positions
`k + 1, k + 2, …`. -/
def runFrom (total : Nat) : Nat → List (VideoResult × StageEnv) → BatchState →
    BatchState
  | _, [], s => s
  | k, it :: rest, s => runFrom total (k + 1) rest (stepItem total (k + 1) it s)

/-- The whole `handleBatchAnalyze` run over an already-filtered list of
eligible videos: early return when the list is empty (lines 76-80),
otherwise the loop followed by `setProgress(100)` and the
`onAnalysisComplete(allAnalyses)` callback (lines 211-222). -/
def batchRun (videos : List VideoResult) (envs : List StageEnv) : BatchState :=
  if videos.length = 0 then initState
  else
    let s := runFrom videos.length 0 (videos.zip envs) initState
    { s with progress := 100, events := s.events ++ [Event.completeEv s.allAnalyses] }

/-- The eligibility filter applied before the batch starts (lines 69-73):
`r.jsonData.scenes && r.jsonData.scenes.length > 0 && r.file.size > 0`. -/
def eligibleB (r : VideoResult) : Bool :=
  (match r.jsonData.scenes with
   | none => false
   | some l => decide (0 < l.length)) && decide (0 < r.file.size)

/-- `handleBatchAnalyze` as invoked on the raw `results` prop: filter for
eligibility, then run the batch over the filtered list. -/
def handleBatchAnalyze (results : List VideoResult) (envs : List StageEnv) :
    BatchState :=
  batchRun (results.filter eligibleB) envs

/-- Success projection of one item (independent of batch position). -/
def itemSuccess (ve : VideoResult × StageEnv) : Option Analysis :=
  match (processItem ve.1 ve.2).2 with
  | .success a => some a
  | _ => none

/-- Failure projection of one item. -/
def itemFailure (ve : VideoResult × StageEnv) : Option FailureRecord :=
  match (processItem ve.1 ve.2).2 with
  | .success _ => none
  | .softFail r => some ⟨ve.1.videoName, r⟩
  | .hardFail r => some ⟨ve.1.videoName, r⟩

/-- Progress events of a trace, in order. -/
def progressList (evs : List Event) : List (Nat × Nat) :=
  evs.filterMap (fun e => match e with
    | .progressEv k p => some (k, p)
    | _ => none)

/-- Item counts tagged on the auto-save exports of a trace, in order. -/
def autoSaveCounts (evs : List Event) : List Nat :=
  evs.filterMap (fun e => match e with
    | .autoSave k _ => some k
    | _ => none)

/-- Video names of the stage calls issued in a trace. -/
def stageCallNames (evs : List Event) : List String :=
  evs.filterMap (fun e => match e with
    | .stageCall n _ => some n
    | _ => none)

/-! ### Trace-observer lemmas -/

theorem progressList_append (a b : List Event) :
    progressList (a ++ b) = progressList a ++ progressList b := by
  simp [progressList]

theorem autoSaveCounts_append (a b : List Event) :
    autoSaveCounts (a ++ b) = autoSaveCounts a ++ autoSaveCounts b := by
  simp [autoSaveCounts]

theorem stageCallNames_append (a b : List Event) :
    stageCallNames (a ++ b) = stageCallNames a ++ stageCallNames b := by
  simp [stageCallNames]

theorem progressList_calls (l : List (String × Stage)) :
    progressList (l.map (fun c => Event.stageCall c.1 c.2)) = [] := by
  simp [progressList]

theorem autoSaveCounts_calls (l : List (String × Stage)) :
    autoSaveCounts (l.map (fun c => Event.stageCall c.1 c.2)) = [] := by
  simp [autoSaveCounts]

theorem stageCallNames_calls :
    ∀ l : List (String × Stage),
      stageCallNames (l.map (fun c => Event.stageCall c.1 c.2)) = l.map Prod.fst
  | [] => rfl
  | c :: rest => by
      have ih := stageCallNames_calls rest
      simp only [List.map_cons]
      show c.1 :: stageCallNames (rest.map fun x => Event.stageCall x.1 x.2) =
        c.1 :: rest.map Prod.fst
      rw [ih]

theorem progressList_one_progress (k p : Nat) :
    progressList [Event.progressEv k p] = [(k, p)] := rfl

theorem progressList_one_autoSave (k : Nat) (pl : List VideoResult) :
    progressList [Event.autoSave k pl] = [] := rfl

theorem progressList_one_complete (a : List Analysis) :
    progressList [Event.completeEv a] = [] := rfl

theorem autoSaveCounts_one_progress (k p : Nat) :
    autoSaveCounts [Event.progressEv k p] = [] := rfl

theorem autoSaveCounts_one_autoSave (k : Nat) (pl : List VideoResult) :
    autoSaveCounts [Event.autoSave k pl] = [k] := rfl

theorem autoSaveCounts_one_complete (a : List Analysis) :
    autoSaveCounts [Event.completeEv a] = [] := rfl

theorem stageCallNames_one_progress (k p : Nat) :
    stageCallNames [Event.progressEv k p] = [] := rfl

theorem stageCallNames_one_autoSave (k : Nat) (pl : List VideoResult) :
    stageCallNames [Event.autoSave k pl] = [] := rfl

theorem stageCallNames_one_complete (a : List Analysis) :
    stageCallNames [Event.completeEv a] = [] := rfl

theorem progressList_nil : progressList [] = [] := rfl

theorem autoSaveCounts_nil : autoSaveCounts [] = [] := rfl

theorem stageCallNames_nil : stageCallNames [] = [] := rfl

theorem stageCallNames_cons_progress (k p : Nat) (evs : List Event) :
    stageCallNames (Event.progressEv k p :: evs) = stageCallNames evs := rfl

theorem stageCallNames_cons_autoSave (k : Nat) (pl : List VideoResult)
    (evs : List Event) :
    stageCallNames (Event.autoSave k pl :: evs) = stageCallNames evs := rfl

theorem progressList_cons_autoSave (k : Nat) (pl : List VideoResult)
    (evs : List Event) :
    progressList (Event.autoSave k pl :: evs) = progressList evs := rfl

theorem autoSaveCounts_cons_progress (k p : Nat) (evs : List Event) :
    autoSaveCounts (Event.progressEv k p :: evs) = autoSaveCounts evs := rfl

/-! ### Per-step characterizations -/

theorem stepItem_allAnalyses (total k : Nat) (ve : VideoResult × StageEnv)
    (s : BatchState) :
    (stepItem total k ve s).allAnalyses =
      s.allAnalyses ++ (itemSuccess ve).toList := by
  unfold stepItem itemSuccess
  rcases h : (processItem ve.1 ve.2).2 <;> simp [h]

theorem stepItem_failures (total k : Nat) (ve : VideoResult × StageEnv)
    (s : BatchState) :
    (stepItem total k ve s).failures =
      s.failures ++ (itemFailure ve).toList := by
  unfold stepItem itemFailure
  rcases h : (processItem ve.1 ve.2).2 <;> simp [h]

theorem stepItem_processedCount (total k : Nat) (ve : VideoResult × StageEnv)
    (s : BatchState) :
    (stepItem total k ve s).processedCount = k := by
  unfold stepItem
  rcases h : (processItem ve.1 ve.2).2 <;> simp [h]

theorem stepItem_progressList (total k : Nat) (ve : VideoResult × StageEnv)
    (s : BatchState) :
    progressList (stepItem total k ve s).events =
      progressList s.events ++ [(k, jsFloorPct k total)] := by
  unfold stepItem
  rcases h : (processItem ve.1 ve.2).2 <;>
    simp [h, progressList_append, progressList_calls, progressList]
  split <;> simp [progressList_append, progressList_calls, progressList]

theorem stepItem_autoSaveCounts (total k : Nat) (ve : VideoResult × StageEnv)
    (s : BatchState) :
    autoSaveCounts (stepItem total k ve s).events =
      autoSaveCounts s.events ++
        (if (itemSuccess ve).isSome ∧ (k % 5 = 0 ∨ k = total) then [k] else []) := by
  unfold stepItem itemSuccess
  rcases h : (processItem ve.1 ve.2).2 <;>
    simp [h, autoSaveCounts_append, autoSaveCounts_calls, autoSaveCounts]
  split <;> simp [autoSaveCounts_append, autoSaveCounts_calls, autoSaveCounts]

theorem stepItem_stageCallNames (total k : Nat) (ve : VideoResult × StageEnv)
    (s : BatchState) :
    stageCallNames (stepItem total k ve s).events =
      stageCallNames s.events ++ (processItem ve.1 ve.2).1.map Prod.fst := by
  unfold stepItem
  rcases h : (processItem ve.1 ve.2).2 <;>
    simp [h, stageCallNames_append, stageCallNames_calls,
      stageCallNames_one_progress, stageCallNames_one_autoSave]
  split <;>
    simp [stageCallNames_append, stageCallNames_calls,
      stageCallNames_one_progress, stageCallNames_one_autoSave,
      stageCallNames_cons_progress, stageCallNames_cons_autoSave,
      stageCallNames_nil]

theorem processItem_call_names (v : VideoResult) (env : StageEnv) :
    ∀ c ∈ (processItem v env).1, c.1 = v.videoName := by
  unfold processItem
  split
  · intro c hc; simp at hc; simp [hc]
  · split
    · intro c hc; simp at hc; simp [hc]
    · split
      · intro c hc; simp at hc; rcases hc with h | h <;> simp [h]
      · split <;>
        · intro c hc; simp at hc
          rcases hc with h | h | h <;> simp [h]

/-! ### Loop characterizations -/

theorem runFrom_allAnalyses (total : Nat) :
    ∀ (items : List (VideoResult × StageEnv)) (k : Nat) (s : BatchState),
      (runFrom total k items s).allAnalyses =
        s.allAnalyses ++ items.filterMap itemSuccess := by
  intro items
  induction items with
  | nil => intro k s; simp [runFrom]
  | cons it rest ih =>
      intro k s
      rw [runFrom, ih, stepItem_allAnalyses]
      rcases h : itemSuccess it <;> simp [h, List.filterMap_cons]

theorem runFrom_failures (total : Nat) :
    ∀ (items : List (VideoResult × StageEnv)) (k : Nat) (s : BatchState),
      (runFrom total k items s).failures =
        s.failures ++ items.filterMap itemFailure := by
  intro items
  induction items with
  | nil => intro k s; simp [runFrom]
  | cons it rest ih =>
      intro k s
      rw [runFrom, ih, stepItem_failures]
      rcases h : itemFailure it <;> simp [h, List.filterMap_cons]

theorem runFrom_processedCount (total : Nat) :
    ∀ (items : List (VideoResult × StageEnv)) (k : Nat) (s : BatchState),
      (runFrom total k items s).processedCount =
        (if items.length = 0 then s.processedCount else k + items.length) := by
  intro items
  induction items with
  | nil => intro k s; simp [runFrom]
  | cons it rest ih =>
      intro k s
      rw [runFrom, ih]
      rcases rest with _ | ⟨r2, rest2⟩
      · simp [stepItem_processedCount]
      · simp; omega

/-- The sequence of progress pairs `(count, pct)` emitted for `n` items
starting after position `k`. -/
def progressFrom (total : Nat) : Nat → Nat → List (Nat × Nat)
  | _, 0 => []
  | k, n + 1 => (k + 1, jsFloorPct (k + 1) total) :: progressFrom total (k + 1) n

theorem runFrom_progressList (total : Nat) :
    ∀ (items : List (VideoResult × StageEnv)) (k : Nat) (s : BatchState),
      progressList (runFrom total k items s).events =
        progressList s.events ++ progressFrom total k items.length := by
  intro items
  induction items with
  | nil => intro k s; simp [runFrom, progressFrom]
  | cons it rest ih =>
      intro k s
      rw [runFrom, ih, stepItem_progressList]
      simp [progressFrom]

theorem progressFrom_eq_range_map (total : Nat) :
    ∀ (n k : Nat), progressFrom total k n =
      (List.range n).map (fun i => (k + i + 1, jsFloorPct (k + i + 1) total)) := by
  intro n
  induction n with
  | zero => intro k; simp [progressFrom]
  | succ n ih =>
      intro k
      rw [progressFrom, ih (k + 1), List.range_succ_eq_map]
      simp only [List.map_cons, List.map_map]
      congr 1
      apply List.map_congr_left
      intro i _
      simp only [Function.comp_apply, Nat.succ_eq_add_one]
      have h : k + 1 + i + 1 = k + (i + 1) + 1 := by omega
      rw [h]

/-- Expected checkpoint positions: a position fires iff its item succeeds
and the position is a multiple of 5 or the last one. -/
def expectedSaves (total : Nat) : Nat → List (VideoResult × StageEnv) → List Nat
  | _, [] => []
  | k, it :: rest =>
      (if (itemSuccess it).isSome ∧ ((k + 1) % 5 = 0 ∨ k + 1 = total) then
        [k + 1] else []) ++ expectedSaves total (k + 1) rest

theorem runFrom_autoSaveCounts (total : Nat) :
    ∀ (items : List (VideoResult × StageEnv)) (k : Nat) (s : BatchState),
      autoSaveCounts (runFrom total k items s).events =
        autoSaveCounts s.events ++ expectedSaves total k items := by
  intro items
  induction items with
  | nil => intro k s; simp [runFrom, expectedSaves]
  | cons it rest ih =>
      intro k s
      rw [runFrom, ih, stepItem_autoSaveCounts]
      simp [expectedSaves]

theorem runFrom_stageCallNames (total : Nat) :
    ∀ (items : List (VideoResult × StageEnv)) (k : Nat) (s : BatchState),
      ∀ n ∈ stageCallNames (runFrom total k items s).events,
        n ∈ stageCallNames s.events ∨ ∃ it ∈ items, n = it.1.videoName := by
  intro items
  induction items with
  | nil => intro k s n hn; exact Or.inl hn
  | cons it rest ih =>
      intro k s n hn
      rcases ih (k + 1) (stepItem total (k + 1) it s) n hn with h | ⟨it2, h1, h2⟩
      · rw [stepItem_stageCallNames] at h
        rcases List.mem_append.mp h with h | h
        · exact Or.inl h
        · refine Or.inr ⟨it, List.mem_cons_self _ _, ?_⟩
          rcases List.mem_map.mp h with ⟨c, hc, rfl⟩
          exact processItem_call_names it.1 it.2 c hc
      · exact Or.inr ⟨it2, List.mem_cons_of_mem _ h1, h2⟩

/-! ### Counting and checkpoint-position lemmas -/

theorem itemFailure_name (ve : VideoResult × StageEnv) (fr : FailureRecord) :
    itemFailure ve = some fr → fr.videoName = ve.1.videoName := by
  unfold itemFailure
  rcases h : (processItem ve.1 ve.2).2 <;> simp [h] <;>
    · intro he; rw [← he]

theorem success_failure_partition :
    ∀ items : List (VideoResult × StageEnv),
      (items.filterMap itemSuccess).length + (items.filterMap itemFailure).length =
        items.length := by
  intro items
  induction items with
  | nil => simp
  | cons it rest ih =>
      rcases h : (processItem it.1 it.2).2 <;>
        simp [List.filterMap_cons, itemSuccess, itemFailure, h] <;> omega

theorem expectedSaves_pos (total : Nat) :
    ∀ (items : List (VideoResult × StageEnv)) (k : Nat),
      ∀ c ∈ expectedSaves total k items, k < c := by
  intro items
  induction items with
  | nil => intro k c hc; simp [expectedSaves] at hc
  | cons it rest ih =>
      intro k c hc
      rw [expectedSaves] at hc
      rcases List.mem_append.mp hc with h | h
      · split at h <;> simp at h
        omega
      · have := ih (k + 1) c h
        omega

theorem expectedSaves_sorted (total : Nat) :
    ∀ (items : List (VideoResult × StageEnv)) (k : Nat),
      List.Pairwise (· < ·) (expectedSaves total k items) := by
  intro items
  induction items with
  | nil => intro k; simp [expectedSaves]
  | cons it rest ih =>
      intro k
      rw [expectedSaves]
      split
      · refine List.Pairwise.cons ?_ (ih (k + 1))
        intro c hc
        exact expectedSaves_pos total rest (k + 1) c hc
      · simpa using ih (k + 1)

theorem expectedSaves_mem (total : Nat) :
    ∀ (items : List (VideoResult × StageEnv)) (k : Nat) (c : Nat),
      c ∈ expectedSaves total k items ↔
        ∃ i, ∃ hi : i < items.length,
          c = k + i + 1 ∧ (itemSuccess (items.get ⟨i, hi⟩)).isSome = true ∧
          (c % 5 = 0 ∨ c = total) := by
  intro items
  induction items with
  | nil => intro k c; simp [expectedSaves]
  | cons it rest ih =>
      intro k c
      rw [expectedSaves]
      constructor
      · intro hc
        rcases List.mem_append.mp hc with h | h
        · split at h <;> simp at h
          rename_i hcond
          subst h
          exact ⟨0, by simp, by omega, by simpa using hcond.1, hcond.2⟩
        · rcases (ih (k + 1) c).mp h with ⟨i, hi, hceq, hs, h5⟩
          refine ⟨i + 1, by simpa using hi, by omega, by simpa using hs, h5⟩
      · rintro ⟨i, hi, hceq, hs, h5⟩
        rcases i with _ | j
        · have hc1 : c = k + 1 := by omega
          subst hc1
          apply List.mem_append.mpr
          left
          have hcond : (itemSuccess it).isSome = true ∧
              ((k + 1) % 5 = 0 ∨ k + 1 = total) := ⟨by simpa using hs, h5⟩
          simp [hcond.1, hcond.2]
        · apply List.mem_append.mpr
          right
          refine (ih (k + 1) c).mpr ⟨j, by simpa using hi, by omega, by simpa using hs, h5⟩

/-! ### Batch-level observers -/

theorem autoSaveCounts_batchRun (videos : List VideoResult)
    (envs : List StageEnv) :
    autoSaveCounts (batchRun videos envs).events =
      expectedSaves videos.length 0 (videos.zip envs) := by
  unfold batchRun
  split
  · rename_i h0
    have hnil : videos = [] := List.length_eq_zero.mp h0
    subst hnil
    simp [initState, expectedSaves, autoSaveCounts_nil]
  · simp only [autoSaveCounts_append, autoSaveCounts_one_complete,
      runFrom_autoSaveCounts, initState, autoSaveCounts_nil]
    simp

theorem progressList_batchRun (videos : List VideoResult) (envs : List StageEnv)
    (h : envs.length = videos.length) (hN : 0 < videos.length) :
    progressList (batchRun videos envs).events =
      (List.range videos.length).map
        (fun i => (i + 1, jsFloorPct (i + 1) videos.length)) := by
  unfold batchRun
  split
  · omega
  · simp only [progressList_append, progressList_one_complete,
      runFrom_progressList, initState, progressList_nil]
    have hlen : (videos.zip envs).length = videos.length := by
      rw [List.length_zip, h]; exact min_self _
    rw [hlen, progressFrom_eq_range_map, List.nil_append]
    simp only [List.append_nil]
    apply List.map_congr_left
    intro i _
    have hz : 0 + i + 1 = i + 1 := by omega
    rw [hz]

theorem processedCount_batchRun (videos : List VideoResult)
    (envs : List StageEnv) (h : envs.length = videos.length)
    (hN : 0 < videos.length) :
    (batchRun videos envs).processedCount = videos.length := by
  unfold batchRun
  split
  · omega
  · have hlen : (videos.zip envs).length = videos.length := by
      rw [List.length_zip, h]; exact min_self _
    simp only [runFrom_processedCount, hlen]
    split <;> omega

/-! ### Correctness of the binary64 model -/

theorem divRoundNE_spec (p q : Nat) (hq : 0 < q) :
    ((p : ℚ) / q - 1 / 2 ≤ (divRoundNE p q : ℚ)) ∧
    ((divRoundNE p q : ℚ) ≤ (p : ℚ) / q + 1 / 2) ∧
    ((divRoundNE p q : ℚ) = (p : ℚ) / q + 1 / 2 → 2 ∣ divRoundNE p q) ∧
    ((divRoundNE p q : ℚ) = (p : ℚ) / q - 1 / 2 → 2 ∣ divRoundNE p q) := by
  have hqQ : (0 : ℚ) < q := by exact_mod_cast hq
  have hq0 : (q : ℚ) ≠ 0 := ne_of_gt hqQ
  have hx : (p : ℚ) / q = (p / q : Nat) + ((p % q : Nat) : ℚ) / q := by
    have hpq : ((p : ℚ)) = q * (p / q : Nat) + (p % q : Nat) := by
      exact_mod_cast (Nat.div_add_mod p q).symm
    field_simp
    linarith
  have hrlt : ((p % q : Nat) : ℚ) / q < 1 := by
    rw [div_lt_one hqQ]
    exact_mod_cast Nat.mod_lt _ hq
  have hrnn : (0 : ℚ) ≤ ((p % q : Nat) : ℚ) / q := by positivity
  unfold divRoundNE
  by_cases h1 : 2 * (p % q) < q
  · have hrq : ((p % q : Nat) : ℚ) / q < 1 / 2 := by
      rw [div_lt_iff₀ hqQ]
      have : ((2 * (p % q) : Nat) : ℚ) < q := by exact_mod_cast h1
      push_cast at this
      linarith
    simp only [h1, if_true]
    refine ⟨by rw [hx]; linarith, by rw [hx]; linarith,
      fun he => absurd he (by rw [hx]; intro he2; nlinarith),
      fun he => absurd he (by rw [hx]; intro he2; nlinarith)⟩
  · by_cases h2 : q < 2 * (p % q)
    · have hrq : 1 / 2 < ((p % q : Nat) : ℚ) / q := by
        rw [lt_div_iff₀ hqQ]
        have : (q : ℚ) < ((2 * (p % q) : Nat) : ℚ) := by exact_mod_cast h2
        push_cast at this
        linarith
      simp only [h1, if_false, h2, if_true]
      push_cast
      refine ⟨by rw [hx]; linarith, by rw [hx]; linarith,
        fun he => absurd he (by rw [hx]; intro he2; nlinarith),
        fun he => absurd he (by rw [hx]; intro he2; nlinarith)⟩
    · have htie : 2 * (p % q) = q := by omega
      have hrq : ((p % q : Nat) : ℚ) / q = 1 / 2 := by
        rw [div_eq_iff hq0]
        have : ((2 * (p % q) : Nat) : ℚ) = q := by exact_mod_cast htie
        push_cast at this
        linarith
      simp only [h1, if_false, h2]
      by_cases h3 : p / q % 2 = 0
      · simp only [h3, if_true]
        exact ⟨by rw [hx]; linarith, by rw [hx]; linarith,
          fun _ => Nat.dvd_of_mod_eq_zero h3,
          fun _ => Nat.dvd_of_mod_eq_zero h3⟩
      · simp only [h3, if_false]
        push_cast
        exact ⟨by rw [hx]; linarith, by rw [hx]; linarith,
          fun _ => by omega, fun _ => by omega⟩

theorem divRoundNE_val_mono (p1 q1 p2 q2 : Nat) (hq1 : 0 < q1) (hq2 : 0 < q2)
    (h : (p1 : ℚ) / q1 ≤ (p2 : ℚ) / q2) :
    divRoundNE p1 q1 ≤ divRoundNE p2 q2 := by
  obtain ⟨l1, u1, e1p, _⟩ := divRoundNE_spec p1 q1 hq1
  obtain ⟨l2, _, _, e2m⟩ := divRoundNE_spec p2 q2 hq2
  by_contra hc
  push_neg at hc
  have hm : ((divRoundNE p2 q2 : ℚ)) + 1 ≤ (divRoundNE p1 q1 : ℚ) := by
    have : divRoundNE p2 q2 + 1 ≤ divRoundNE p1 q1 := hc
    exact_mod_cast this
  have hx1 : (divRoundNE p1 q1 : ℚ) = (p1 : ℚ) / q1 + 1 / 2 := by linarith
  have hx2 : (divRoundNE p2 q2 : ℚ) = (p2 : ℚ) / q2 - 1 / 2 := by linarith
  have hev1 := e1p hx1
  have hev2 := e2m hx2
  have heq : (divRoundNE p1 q1 : ℚ) = (divRoundNE p2 q2 : ℚ) + 1 := by linarith
  have heqN : divRoundNE p1 q1 = divRoundNE p2 q2 + 1 := by exact_mod_cast heq
  omega

theorem natLog2F_correct :
    ∀ fuel n, 0 < n → n ≤ fuel →
      2 ^ natLog2F fuel n ≤ n ∧ n < 2 ^ (natLog2F fuel n + 1) := by
  intro fuel
  induction fuel with
  | zero => intro n hn h0; omega
  | succ fuel ih =>
      intro n hn hle
      match n, hn with
      | 1, _ => simp [natLog2F]
      | (m + 2), _ =>
          rw [natLog2F]
          have hrec := ih ((m + 2) / 2) (by omega) (by omega)
          obtain ⟨ha, hb⟩ := hrec
          constructor
          · have : 2 ^ (natLog2F fuel ((m + 2) / 2) + 1) =
                2 * 2 ^ natLog2F fuel ((m + 2) / 2) := by ring
            rw [this]
            omega
          · have : 2 ^ (natLog2F fuel ((m + 2) / 2) + 1 + 1) =
                2 * 2 ^ (natLog2F fuel ((m + 2) / 2) + 1) := by ring
            rw [this]
            omega

theorem natLog2_correct (n : Nat) (hn : 0 < n) :
    2 ^ natLog2 n ≤ n ∧ n < 2 ^ (natLog2 n + 1) :=
  natLog2F_correct n n hn le_rfl

theorem q_pow_int (n : Nat) : (2 : ℚ) ^ ((n : ℤ)) = ((2 ^ n : ℕ) : ℚ) := by
  rw [zpow_natCast]
  push_cast
  ring

theorem ratLog2_correct (a b : Nat) (ha : 0 < a) (hb : 0 < b) :
    (2 : ℚ) ^ ratLog2 a b ≤ (a : ℚ) / b ∧
      (a : ℚ) / b < (2 : ℚ) ^ (ratLog2 a b + 1) := by
  have hbQ : (0 : ℚ) < b := by exact_mod_cast hb
  obtain ⟨hla1, hla2⟩ := natLog2_correct a ha
  obtain ⟨hlb1, hlb2⟩ := natLog2_correct b hb
  set la := natLog2 a with hla
  set lb := natLog2 b with hlb
  have hup : (a : ℚ) / b < (2 : ℚ) ^ ((la : ℤ) - lb + 1) := by
    rw [div_lt_iff₀ hbQ]
    have h1 : (a : ℚ) * 2 ^ (lb : ℕ) < (2 : ℚ) ^ (la + 1 : ℕ) * b := by
      have c1 : (a : ℚ) < (2 : ℚ) ^ (la + 1 : ℕ) := by exact_mod_cast hla2
      have c2 : ((2 : ℚ)) ^ (lb : ℕ) ≤ b := by exact_mod_cast hlb1
      have c3 : (0 : ℚ) < (2 : ℚ) ^ (lb : ℕ) := by positivity
      have c4 : (0 : ℚ) < (2 : ℚ) ^ (la + 1 : ℕ) := by positivity
      calc (a : ℚ) * 2 ^ (lb : ℕ) < (2 : ℚ) ^ (la + 1 : ℕ) * 2 ^ (lb : ℕ) := by
            exact mul_lt_mul_of_pos_right c1 c3
        _ ≤ (2 : ℚ) ^ (la + 1 : ℕ) * b := by
            exact mul_le_mul_of_nonneg_left c2 (le_of_lt c4)
    have hpow : (2 : ℚ) ^ ((la : ℤ) - lb + 1) * (2 : ℚ) ^ (lb : ℕ) =
        (2 : ℚ) ^ (la + 1 : ℕ) := by
      rw [← zpow_natCast (2 : ℚ) lb, ← zpow_natCast (2 : ℚ) (la + 1),
        ← zpow_add₀ (two_ne_zero)]
      congr 1
      push_cast
      ring
    have h2lb : (0 : ℚ) < (2 : ℚ) ^ (lb : ℕ) := by positivity
    have h3 : (a : ℚ) * 2 ^ (lb : ℕ) <
        ((2 : ℚ) ^ ((la : ℤ) - lb + 1) * b) * 2 ^ (lb : ℕ) := by
      calc (a : ℚ) * 2 ^ (lb : ℕ) < (2 : ℚ) ^ (la + 1 : ℕ) * b := h1
        _ = ((2 : ℚ) ^ ((la : ℤ) - lb + 1) * b) * 2 ^ (lb : ℕ) := by
            rw [← hpow]; ring
    exact lt_of_mul_lt_mul_right h3 (le_of_lt h2lb)
  have hlo : (2 : ℚ) ^ ((la : ℤ) - lb - 1) < (a : ℚ) / b := by
    rw [lt_div_iff₀ hbQ]
    have h1 : (2 : ℚ) ^ (la : ℕ) * b < (a : ℚ) * 2 ^ (lb + 1 : ℕ) := by
      have c1 : ((2 : ℚ)) ^ (la : ℕ) ≤ a := by exact_mod_cast hla1
      have c2 : (b : ℚ) < (2 : ℚ) ^ (lb + 1 : ℕ) := by exact_mod_cast hlb2
      have c3 : (0 : ℚ) < (2 : ℚ) ^ (la : ℕ) := by positivity
      have c4 : (0 : ℚ) < (2 : ℚ) ^ (lb + 1 : ℕ) := by positivity
      calc (2 : ℚ) ^ (la : ℕ) * b < (2 : ℚ) ^ (la : ℕ) * 2 ^ (lb + 1 : ℕ) := by
            exact mul_lt_mul_of_pos_left c2 c3
        _ ≤ (a : ℚ) * 2 ^ (lb + 1 : ℕ) := by
            exact mul_le_mul_of_nonneg_right c1 (le_of_lt c4)
    have hpow : (2 : ℚ) ^ ((la : ℤ) - lb - 1) * (2 : ℚ) ^ (lb + 1 : ℕ) =
        (2 : ℚ) ^ (la : ℕ) := by
      rw [← zpow_natCast (2 : ℚ) (lb + 1), ← zpow_natCast (2 : ℚ) la,
        ← zpow_add₀ (two_ne_zero)]
      congr 1
      push_cast
      ring
    have h2lb : (0 : ℚ) < (2 : ℚ) ^ (lb + 1 : ℕ) := by positivity
    have h3 : ((2 : ℚ) ^ ((la : ℤ) - lb - 1) * b) * 2 ^ (lb + 1 : ℕ) <
        (a : ℚ) * 2 ^ (lb + 1 : ℕ) := by
      calc ((2 : ℚ) ^ ((la : ℤ) - lb - 1) * b) * 2 ^ (lb + 1 : ℕ) =
          (2 : ℚ) ^ (la : ℕ) * b := by rw [← hpow]; ring
        _ < (a : ℚ) * 2 ^ (lb + 1 : ℕ) := h1
    exact lt_of_mul_lt_mul_right h3 (le_of_lt h2lb)
  have hbranch : ratLog2 a b =
      if (2 : ℚ) ^ ((la : ℤ) - lb) ≤ (a : ℚ) / b then (la : ℤ) - lb
      else (la : ℤ) - lb - 1 := by
    unfold ratLog2
    rw [← hla, ← hlb]
    by_cases hz0 : (0 : ℤ) ≤ (la : ℤ) - lb
    · have hiff : (2 ^ ((la : ℤ) - lb).toNat * b ≤ a) ↔
          ((2 : ℚ) ^ ((la : ℤ) - lb) ≤ (a : ℚ) / b) := by
        rw [le_div_iff₀ hbQ]
        have hp : (2 : ℚ) ^ ((la : ℤ) - lb) =
            ((2 ^ ((la : ℤ) - lb).toNat : ℕ) : ℚ) := by
          rw [← q_pow_int, Int.toNat_of_nonneg hz0]
        rw [hp,
          show ((2 ^ ((la : ℤ) - lb).toNat : ℕ) : ℚ) * (b : ℚ) =
            ((2 ^ ((la : ℤ) - lb).toNat * b : ℕ) : ℚ) by push_cast; ring]
        exact Iff.symm Nat.cast_le
      rw [if_pos hz0]
      exact if_congr hiff rfl rfl
    · have hneg : ((((-((la : ℤ) - lb)).toNat) : ℤ)) = -((la : ℤ) - lb) :=
        Int.toNat_of_nonneg (by omega)
      have hp : (2 : ℚ) ^ ((la : ℤ) - lb) =
          (((2 ^ (-((la : ℤ) - lb)).toNat : ℕ) : ℚ))⁻¹ := by
        rw [← q_pow_int, hneg, zpow_neg, inv_inv]
      have hpos : (0 : ℚ) < ((2 ^ (-((la : ℤ) - lb)).toNat : ℕ) : ℚ) := by
        positivity
      have hiff : (b ≤ 2 ^ (-((la : ℤ) - lb)).toNat * a) ↔
          ((2 : ℚ) ^ ((la : ℤ) - lb) ≤ (a : ℚ) / b) := by
        rw [le_div_iff₀ hbQ, hp, inv_mul_le_iff₀ hpos,
          show ((2 ^ (-((la : ℤ) - lb)).toNat : ℕ) : ℚ) * (a : ℚ) =
            ((2 ^ (-((la : ℤ) - lb)).toNat * a : ℕ) : ℚ) by push_cast; ring]
        exact Iff.symm Nat.cast_le
      rw [if_neg hz0]
      exact if_congr hiff rfl rfl
  rw [hbranch]
  by_cases hc : (2 : ℚ) ^ ((la : ℤ) - lb) ≤ (a : ℚ) / b
  · rw [if_pos hc]
    exact ⟨hc, hup⟩
  · rw [if_neg hc]
    constructor
    · linarith [hlo]
    · have he : (la : ℤ) - lb - 1 + 1 = (la : ℤ) - lb := by ring
      rw [he]
      exact lt_of_not_le hc

theorem roundRatD_eq (a b : Nat) (ha : 0 < a) (hb : 0 < b) :
    ∃ p q : Nat, 0 < p ∧ 0 < q ∧
      roundRatD a b = (divRoundNE p q, ratLog2 a b) ∧
      (p : ℚ) / q = (a : ℚ) / b * (2 : ℚ) ^ ((52 : ℤ) - ratLog2 a b) := by
  unfold roundRatD
  by_cases hc : 0 ≤ (52 : ℤ) - ratLog2 a b
  · refine ⟨a * 2 ^ ((52 : ℤ) - ratLog2 a b).toNat, b, by positivity, hb,
      by rw [if_pos hc], ?_⟩
    have hcast : ((a * 2 ^ ((52 : ℤ) - ratLog2 a b).toNat : ℕ) : ℚ) =
        (a : ℚ) * (2 : ℚ) ^ ((52 : ℤ) - ratLog2 a b) := by
      push_cast
      rw [← zpow_natCast (2 : ℚ), Int.toNat_of_nonneg hc]
    rw [hcast, mul_div_right_comm]
  · refine ⟨a, b * 2 ^ (ratLog2 a b - 52).toNat, ha, by positivity,
      by rw [if_neg hc], ?_⟩
    have hu : (((ratLog2 a b - 52).toNat : ℤ)) = ratLog2 a b - 52 :=
      Int.toNat_of_nonneg (by omega)
    have hcast : ((b * 2 ^ (ratLog2 a b - 52).toNat : ℕ) : ℚ) =
        (b : ℚ) * (2 : ℚ) ^ (ratLog2 a b - 52) := by
      push_cast
      rw [← zpow_natCast (2 : ℚ), hu]
    rw [hcast,
      show (2 : ℚ) ^ ((52 : ℤ) - ratLog2 a b) =
        ((2 : ℚ) ^ (ratLog2 a b - 52))⁻¹ by
          rw [← zpow_neg]; congr 1; ring,
      div_mul_eq_div_div, div_eq_mul_inv ((a : ℚ) / b)]

theorem roundRatD_m_bounds (a b : Nat) (ha : 0 < a) (hb : 0 < b) :
    2 ^ 52 ≤ (roundRatD a b).1 ∧ (roundRatD a b).1 ≤ 2 ^ 53 := by
  obtain ⟨p, q, hp, hq, he, hv⟩ := roundRatD_eq a b ha hb
  obtain ⟨hzl, hzu⟩ := ratLog2_correct a b ha hb
  have hm : (roundRatD a b).1 = divRoundNE p q := by rw [he]
  obtain ⟨hlow, hup, _, _⟩ := divRoundNE_spec p q hq
  have hpw : (0 : ℚ) < (2 : ℚ) ^ ((52 : ℤ) - ratLog2 a b) := zpow_pos two_pos _
  have hx1 : (2 : ℚ) ^ (52 : ℤ) ≤ (p : ℚ) / q := by
    rw [hv]
    calc (2 : ℚ) ^ (52 : ℤ) =
        (2 : ℚ) ^ ratLog2 a b * (2 : ℚ) ^ ((52 : ℤ) - ratLog2 a b) := by
          rw [← zpow_add₀ (two_ne_zero)]; congr 1; ring
      _ ≤ (a : ℚ) / b * (2 : ℚ) ^ ((52 : ℤ) - ratLog2 a b) :=
          mul_le_mul_of_nonneg_right hzl (le_of_lt hpw)
  have hx2 : (p : ℚ) / q < (2 : ℚ) ^ (53 : ℤ) := by
    rw [hv]
    calc (a : ℚ) / b * (2 : ℚ) ^ ((52 : ℤ) - ratLog2 a b) <
        (2 : ℚ) ^ (ratLog2 a b + 1) * (2 : ℚ) ^ ((52 : ℤ) - ratLog2 a b) :=
          mul_lt_mul_of_pos_right hzu hpw
      _ = (2 : ℚ) ^ (53 : ℤ) := by
          rw [← zpow_add₀ (two_ne_zero)]; congr 1; ring
  constructor
  · rw [hm]
    have h1 : ((2 ^ 52 - 1 : ℕ) : ℚ) < (divRoundNE p q : ℚ) := by
      have h2 : (2 : ℚ) ^ (52 : ℤ) = ((2 ^ 52 : ℕ) : ℚ) := q_pow_int 52
      push_cast at h2 ⊢
      nlinarith [hlow, hx1]
    have h2 : (2 ^ 52 - 1 : ℕ) < divRoundNE p q := by exact_mod_cast h1
    omega
  · rw [hm]
    have h1 : (divRoundNE p q : ℚ) < ((2 ^ 53 + 1 : ℕ) : ℚ) := by
      have h2 : (2 : ℚ) ^ (53 : ℤ) = ((2 ^ 53 : ℕ) : ℚ) := q_pow_int 53
      push_cast at h2 ⊢
      nlinarith [hup, hx2]
    have h2 : divRoundNE p q < 2 ^ 53 + 1 := by exact_mod_cast h1
    omega

theorem roundRatD_dval_bounds (a b : Nat) (ha : 0 < a) (hb : 0 < b) :
    (2 : ℚ) ^ ratLog2 a b ≤ dval (roundRatD a b) ∧
      dval (roundRatD a b) ≤ (2 : ℚ) ^ (ratLog2 a b + 1) := by
  obtain ⟨hm1, hm2⟩ := roundRatD_m_bounds a b ha hb
  have hz : (roundRatD a b).2 = ratLog2 a b := by unfold roundRatD; rfl
  have hpw : (0 : ℚ) < (2 : ℚ) ^ (ratLog2 a b - 52) := zpow_pos two_pos _
  have hc1 : ((2 ^ 52 : ℕ) : ℚ) ≤ ((roundRatD a b).1 : ℚ) := by exact_mod_cast hm1
  have hc2 : (((roundRatD a b).1 : ℕ) : ℚ) ≤ ((2 ^ 53 : ℕ) : ℚ) := by exact_mod_cast hm2
  rw [← q_pow_int] at hc1 hc2
  unfold dval
  rw [hz]
  constructor
  · calc (2 : ℚ) ^ ratLog2 a b =
        (2 : ℚ) ^ ((52 : ℕ) : ℤ) * (2 : ℚ) ^ (ratLog2 a b - 52) := by
          rw [← zpow_add₀ (two_ne_zero)]; congr 1; push_cast; ring
      _ ≤ ((roundRatD a b).1 : ℚ) * (2 : ℚ) ^ (ratLog2 a b - 52) :=
          mul_le_mul_of_nonneg_right hc1 (le_of_lt hpw)
  · calc ((roundRatD a b).1 : ℚ) * (2 : ℚ) ^ (ratLog2 a b - 52) ≤
        (2 : ℚ) ^ ((53 : ℕ) : ℤ) * (2 : ℚ) ^ (ratLog2 a b - 52) :=
          mul_le_mul_of_nonneg_right hc2 (le_of_lt hpw)
      _ = (2 : ℚ) ^ (ratLog2 a b + 1) := by
          rw [← zpow_add₀ (two_ne_zero)]; congr 1; push_cast; ring

theorem roundRatD_val_mono (a1 b1 a2 b2 : Nat) (ha1 : 0 < a1) (hb1 : 0 < b1)
    (ha2 : 0 < a2) (hb2 : 0 < b2) (h : (a1 : ℚ) / b1 ≤ (a2 : ℚ) / b2) :
    dval (roundRatD a1 b1) ≤ dval (roundRatD a2 b2) := by
  obtain ⟨hz1l, hz1u⟩ := ratLog2_correct a1 b1 ha1 hb1
  obtain ⟨hz2l, hz2u⟩ := ratLog2_correct a2 b2 ha2 hb2
  have hzle : ratLog2 a1 b1 ≤ ratLog2 a2 b2 := by
    by_contra hcon
    push_neg at hcon
    have hstep : (2 : ℚ) ^ (ratLog2 a2 b2 + 1) ≤ (2 : ℚ) ^ ratLog2 a1 b1 :=
      zpow_le_zpow_right₀ one_le_two (by omega)
    linarith
  rcases eq_or_lt_of_le hzle with heq | hlt
  · obtain ⟨p1, q1, hp1, hq1, he1, hv1⟩ := roundRatD_eq a1 b1 ha1 hb1
    obtain ⟨p2, q2, hp2, hq2, he2, hv2⟩ := roundRatD_eq a2 b2 ha2 hb2
    have hx : (p1 : ℚ) / q1 ≤ (p2 : ℚ) / q2 := by
      rw [hv1, hv2, heq]
      exact mul_le_mul_of_nonneg_right h (le_of_lt (zpow_pos two_pos _))
    have hm := divRoundNE_val_mono p1 q1 p2 q2 hq1 hq2 hx
    rw [he1, he2]
    unfold dval
    simp only [heq]
    exact mul_le_mul_of_nonneg_right (by exact_mod_cast hm)
      (le_of_lt (zpow_pos two_pos _))
  · obtain ⟨_, hub⟩ := roundRatD_dval_bounds a1 b1 ha1 hb1
    obtain ⟨hlb, _⟩ := roundRatD_dval_bounds a2 b2 ha2 hb2
    calc dval (roundRatD a1 b1) ≤ (2 : ℚ) ^ (ratLog2 a1 b1 + 1) := hub
      _ ≤ (2 : ℚ) ^ ratLog2 a2 b2 := zpow_le_zpow_right₀ one_le_two (by omega)
      _ ≤ dval (roundRatD a2 b2) := hlb

theorem jsMul100D_eq (mz : Nat × Int) (hm : 0 < mz.1) :
    ∃ p q : Nat, 0 < p ∧ 0 < q ∧ jsMul100D mz = roundRatD p q ∧
      (p : ℚ) / q = dval mz * 100 := by
  unfold jsMul100D
  by_cases hc : 0 ≤ (52 : ℤ) - mz.2
  · refine ⟨mz.1 * 100, 2 ^ ((52 : ℤ) - mz.2).toNat, by positivity, by positivity,
      by rw [if_pos hc], ?_⟩
    unfold dval
    have hcast : ((2 ^ ((52 : ℤ) - mz.2).toNat : ℕ) : ℚ) =
        (2 : ℚ) ^ ((52 : ℤ) - mz.2) := by
      rw [← q_pow_int, Int.toNat_of_nonneg hc]
    rw [hcast,
      show (2 : ℚ) ^ ((52 : ℤ) - mz.2) = ((2 : ℚ) ^ (mz.2 - 52))⁻¹ by
        rw [← zpow_neg]; congr 1; ring,
      div_eq_mul_inv, inv_inv]
    push_cast
    ring
  · refine ⟨mz.1 * 100 * 2 ^ (mz.2 - 52).toNat, 1, by positivity, one_pos,
      by rw [if_neg hc], ?_⟩
    unfold dval
    have hu : (((mz.2 - 52).toNat : ℤ)) = mz.2 - 52 := Int.toNat_of_nonneg (by omega)
    push_cast
    rw [← zpow_natCast (2 : ℚ) ((mz.2 - 52).toNat), hu]
    ring

theorem jsFloorD_eq_floor (mz : Nat × Int) :
    (jsFloorD mz : ℤ) = ⌊dval mz⌋ := by
  unfold jsFloorD dval
  by_cases hc : 0 ≤ mz.2 - 52
  · rw [if_pos hc]
    have hcast : (mz.1 : ℚ) * (2 : ℚ) ^ (mz.2 - 52) =
        ((mz.1 * 2 ^ (mz.2 - 52).toNat : ℕ) : ℚ) := by
      push_cast
      rw [← zpow_natCast (2 : ℚ), Int.toNat_of_nonneg hc]
    rw [hcast, Int.floor_natCast]
  · rw [if_neg hc]
    have hu : ((((52 : ℤ) - mz.2).toNat : ℤ)) = 52 - mz.2 :=
      Int.toNat_of_nonneg (by omega)
    have hd : (mz.1 : ℚ) * (2 : ℚ) ^ (mz.2 - 52) =
        (mz.1 : ℚ) / ((2 ^ ((52 : ℤ) - mz.2).toNat : ℕ) : ℚ) := by
      rw [div_eq_mul_inv]
      congr 1
      rw [← q_pow_int, hu, ← zpow_neg]
      congr 1
      ring
    rw [hd, Rat.floor_natCast_div_natCast]
    exact Int.ofNat_div _ _

theorem dval_pos (mz : Nat × Int) (hm : 0 < mz.1) : 0 < dval mz := by
  unfold dval
  have h1 : (0 : ℚ) < mz.1 := by exact_mod_cast hm
  exact mul_pos h1 (zpow_pos two_pos _)

/-- The binary64 progress percentage is monotone in the processed count:
each of the correctly rounded division, the correctly rounded
multiplication and the exact floor is monotone. -/
theorem jsFloorPct_mono (total : Nat) (ht : 0 < total) :
    ∀ k1 k2 : Nat, k1 ≤ k2 → jsFloorPct k1 total ≤ jsFloorPct k2 total := by
  intro k1 k2 hk
  rcases Nat.eq_zero_or_pos k1 with h0 | hpos
  · subst h0
    unfold jsFloorPct
    rw [if_pos (Or.inl rfl)]
    exact Nat.zero_le _
  · have hpos2 : 0 < k2 := lt_of_lt_of_le hpos hk
    unfold jsFloorPct jsDivD
    rw [if_neg (by omega), if_neg (by omega)]
    have htQ : (0 : ℚ) < total := by exact_mod_cast ht
    have hdiv : dval (roundRatD k1 total) ≤ dval (roundRatD k2 total) :=
      roundRatD_val_mono k1 total k2 total hpos ht hpos2 ht
        (by
          rw [div_le_div_iff htQ htQ]
          have hcross : (k1 * total : ℕ) ≤ k2 * total := Nat.mul_le_mul_right _ hk
          exact_mod_cast hcross)
    have hm1 : 0 < (roundRatD k1 total).1 := by
      have := (roundRatD_m_bounds k1 total hpos ht).1
      omega
    have hm2 : 0 < (roundRatD k2 total).1 := by
      have := (roundRatD_m_bounds k2 total hpos2 ht).1
      omega
    obtain ⟨p1, q1, hp1, hq1, he1, hv1⟩ := jsMul100D_eq (roundRatD k1 total) hm1
    obtain ⟨p2, q2, hp2, hq2, he2, hv2⟩ := jsMul100D_eq (roundRatD k2 total) hm2
    have hmul : dval (jsMul100D (roundRatD k1 total)) ≤
        dval (jsMul100D (roundRatD k2 total)) := by
      rw [he1, he2]
      refine roundRatD_val_mono p1 q1 p2 q2 hp1 hq1 hp2 hq2 ?_
      rw [hv1, hv2]
      nlinarith [hdiv]
    have hfl : (jsFloorD (jsMul100D (roundRatD k1 total)) : ℤ) ≤
        (jsFloorD (jsMul100D (roundRatD k2 total)) : ℤ) := by
      rw [jsFloorD_eq_floor, jsFloorD_eq_floor]
      exact Int.floor_le_floor hmul
    exact_mod_cast hfl

/-- At the last item `k = N` the quotient is exactly 1.0 and the product
exactly 100.0, so the binary64 percentage is exactly 100. -/
theorem jsFloorPct_self (N : Nat) (hN : 0 < N) : jsFloorPct N N = 100 := by
  unfold jsFloorPct jsDivD
  rw [if_neg (by omega)]
  have hz : ratLog2 N N = 0 := by
    unfold ratLog2
    have hz0 : ((natLog2 N : ℤ)) - (natLog2 N : ℤ) = 0 := by ring
    rw [hz0]
    norm_num
  have hdiv : roundRatD N N = (2 ^ 52, 0) := by
    have hmod : (N * 2 ^ 52) % N = 0 := Nat.mul_mod_right N _
    have hdvd : (N * 2 ^ 52) / N = 2 ^ 52 := Nat.mul_div_cancel_left _ hN
    unfold roundRatD divRoundNE
    rw [hz]
    norm_num
    rw [if_pos hN, show Int.toNat 52 = 52 from rfl, hdvd]
    norm_num
  rw [hdiv]
  decide

/-! ### Concrete sample inputs used by counterexamples and witnesses -/

/-- A detected scene with index 0. -/
def sceneOne : SceneData := ⟨⟨0, 0⟩, "f0"⟩

/-- A detected scene with index 1. -/
def sceneTwo : SceneData := ⟨⟨1, 0⟩, "f1"⟩

/-- A minimal scene-detection output with the given name and scenes. -/
def jsonWithScenes (name : String) (scenes : List SceneData) : OutputJson :=
  { name := name, clips := [], transitions := [], logo_outro := false
    music_file := "", fade_in_duration := ⟨0, 0⟩, fade_out_duration := ⟨0, 0⟩
    scenes := some scenes, vibe_description := none, image_prompts := none
    video_prompt := none }

/-- An eligible artifact with one scene. -/
def vA : VideoResult := ⟨"a", "va", jsonWithScenes "va" [sceneOne], ⟨9⟩⟩

/-- An eligible artifact with two scenes. -/
def vB : VideoResult := ⟨"b", "vb", jsonWithScenes "vb" [sceneOne, sceneTwo], ⟨9⟩⟩

/-- An ineligible artifact: empty `sceneSet`. -/
def vNoScenes : VideoResult := ⟨"c", "vc", jsonWithScenes "vc" [], ⟨9⟩⟩

/-- An ineligible artifact: empty media reference (`file.size = 0`). -/
def vNoMedia : VideoResult := ⟨"d", "vd", jsonWithScenes "vd" [sceneOne], ⟨0⟩⟩

/-- A network oracle where all three stages succeed, answering the given
image-prompt list. -/
def envOk (prompts : List String) : StageEnv :=
  { vibe := { ok := true, failed := false, vibe_extraction := some "v", error := none }
    prompts := { ok := true, image_prompts := prompts, error := none }
    vprompt := { ok := true, video_prompt := "vp", error := none } }

/-- A network oracle whose vibe stage soft-fails
(`{failed: true, error: "no content"}` over a 2xx transport). -/
def envSoftFail : StageEnv :=
  { vibe := { ok := true, failed := true, vibe_extraction := none, error := some "no content" }
    prompts := { ok := true, image_prompts := [], error := none }
    vprompt := { ok := true, video_prompt := "", error := none } }

/-! ### Claims C1, C2, C3 -/

/-- Claim C1, counterexample: with `N = 1` and a soft failure on the single
(and hence last) item, the run processes the item but invokes the
checkpoint export zero times, whereas the claim mandates exactly one
invocation after the last item "regardless of whether that last item
completed or failed". -/
theorem checkpoint_skipped_on_failed_last_item :
    (batchRun [vA] [envSoftFail]).processedCount = 1 ∧
    autoSaveCounts (batchRun [vA] [envSoftFail]).events = [] := by
  decide

/-- Claim C1 (amended): during a batch run over `N` eligible artifacts, the
checkpoint export is invoked exactly after each COMPLETED item whose
1-based position is a multiple of 5 or is the last position; a failed item
never triggers a checkpoint, and each qualifying position fires exactly
once, in increasing order. -/
theorem checkpoint_after_completed_multiples_and_last
    (videos : List VideoResult) (envs : List StageEnv)
    (h : envs.length = videos.length) :
    (videos.zip envs).length = videos.length ∧
    (∀ c : Nat,
      c ∈ autoSaveCounts (batchRun videos envs).events ↔
        ∃ i, ∃ hi : i < (videos.zip envs).length,
          c = i + 1 ∧
          (itemSuccess ((videos.zip envs).get ⟨i, hi⟩)).isSome = true ∧
          (c % 5 = 0 ∨ c = videos.length)) ∧
    List.Pairwise (· < ·) (autoSaveCounts (batchRun videos envs).events) := by
  have hlen : (videos.zip envs).length = videos.length := by
    rw [List.length_zip, h]; exact min_self _
  refine ⟨hlen, ?_, ?_⟩
  · intro c
    rw [autoSaveCounts_batchRun, expectedSaves_mem]
    constructor
    · rintro ⟨i, hi, hceq, hs, h5⟩
      exact ⟨i, hi, by omega, hs, h5⟩
    · rintro ⟨i, hi, hceq, hs, h5⟩
      exact ⟨i, hi, by omega, hs, h5⟩
  · rw [autoSaveCounts_batchRun]
    exact expectedSaves_sorted _ _ _

/-- Witness for the amended Claim C1 at a concrete one-item batch. -/
theorem checkpoint_after_completed_multiples_and_last_witness :
    ([vA].zip [envOk ["p"]]).length = [vA].length ∧
    (∀ c : Nat,
      c ∈ autoSaveCounts (batchRun [vA] [envOk ["p"]]).events ↔
        ∃ i, ∃ hi : i < ([vA].zip [envOk ["p"]]).length,
          c = i + 1 ∧
          (itemSuccess (([vA].zip [envOk ["p"]]).get ⟨i, hi⟩)).isSome = true ∧
          (c % 5 = 0 ∨ c = [vA].length)) ∧
    List.Pairwise (· < ·) (autoSaveCounts (batchRun [vA] [envOk ["p"]]).events) :=
  checkpoint_after_completed_multiples_and_last [vA] [envOk ["p"]] rfl

/-- Claim C2, counterexample: an artifact with scene count `S = 2` receives
a transport-successful image-prompts response of length `S - 1 = 1`; the
item does NOT fail — it completes with the short prompt list stored
unchanged and the video-prompt stage IS invoked. -/
theorem image_prompt_count_mismatch_accepted_cex :
    (vB.jsonData.scenes.getD []).length = 2 ∧
    (envOk ["p1"]).prompts.image_prompts.length = 1 ∧
    (batchRun [vB] [envOk ["p1"]]).failures = [] ∧
    (batchRun [vB] [envOk ["p1"]]).allAnalyses =
      [{ resultId := "b", vibe := "v", imagePrompts := ["p1"], videoPrompt := "vp" }] ∧
    Event.stageCall "vb" Stage.videoPrompt ∈ (batchRun [vB] [envOk ["p1"]]).events := by
  decide

/-- Claim C2 (amended): a transport-successful image-prompts response is
accepted WITHOUT any length validation against the scene count: whatever
its length, the prompt list is stored unchanged (neither truncated nor
padded) in the item's analysis and the video-prompt stage is invoked. -/
theorem image_prompts_accepted_without_length_validation
    (v : VideoResult) (env : StageEnv)
    (h1 : env.vibe.ok = true) (h2 : env.vibe.failed = false)
    (h3 : jsFalsyStr env.vibe.vibe_extraction = false)
    (h4 : env.prompts.ok = true) (h5 : env.vprompt.ok = true) :
    (processItem v env).2 = ItemOutcome.success
      { resultId := v.id, vibe := env.vibe.vibe_extraction.getD ""
        imagePrompts := env.prompts.image_prompts
        videoPrompt := env.vprompt.video_prompt } ∧
    (v.videoName, Stage.videoPrompt) ∈ (processItem v env).1 := by
  unfold processItem
  simp [h1, h2, h3, h4, h5]

/-- Witness for the amended Claim C2 at the mismatched-length input. -/
theorem image_prompts_accepted_without_length_validation_witness :
    (processItem vB (envOk ["p1"])).2 = ItemOutcome.success
      { resultId := vB.id, vibe := (envOk ["p1"]).vibe.vibe_extraction.getD ""
        imagePrompts := (envOk ["p1"]).prompts.image_prompts
        videoPrompt := (envOk ["p1"]).vprompt.video_prompt } ∧
    (vB.videoName, Stage.videoPrompt) ∈ (processItem vB (envOk ["p1"])).1 :=
  image_prompts_accepted_without_length_validation vB (envOk ["p1"])
    (by decide) (by decide) (by decide) (by decide) (by decide)

/-- Claim C3: for a batch of `N` eligible artifacts of which `M` fail at
any stage, on normal termination the success accumulator holds exactly
`N - M` entries and the failure accumulator exactly `M`; each processed
item lands in exactly one accumulator, so the counts always sum to `N`. -/
theorem batch_accumulator_partition
    (videos : List VideoResult) (envs : List StageEnv)
    (h : envs.length = videos.length) :
    (batchRun videos envs).allAnalyses.length +
      (batchRun videos envs).failures.length = videos.length ∧
    (batchRun videos envs).allAnalyses.length =
      videos.length - (batchRun videos envs).failures.length := by
  have hlen : (videos.zip envs).length = videos.length := by
    rw [List.length_zip, h]; exact min_self _
  have hpart := success_failure_partition (videos.zip envs)
  unfold batchRun
  split
  · rename_i h0
    simp [initState]
    omega
  · simp only [runFrom_allAnalyses, runFrom_failures, initState, List.nil_append]
    constructor <;> omega

/-- Witness for Claim C3: a two-item batch with one success and one
failure yields accumulators of sizes 1 and 1. -/
theorem batch_accumulator_partition_witness :
    (batchRun [vA, vB] [envOk ["p"], envSoftFail]).allAnalyses.length +
      (batchRun [vA, vB] [envOk ["p"], envSoftFail]).failures.length =
        [vA, vB].length ∧
    (batchRun [vA, vB] [envOk ["p"], envSoftFail]).allAnalyses.length =
      [vA, vB].length -
        (batchRun [vA, vB] [envOk ["p"], envSoftFail]).failures.length :=
  batch_accumulator_partition [vA, vB] [envOk ["p"], envSoftFail] rfl

/-! ### Claims C4, C5, C6 -/

/-- Claim C4: a soft failure on the vibe-extraction stage (2xx with
`failed: true` or a falsy `vibe_extraction`) at position `k` records a
FailureRecord for that item whose reason is the service-supplied error
when one is supplied (falling back to "API returned no content"), and the
batch still processes every item: the full progress sequence (with the
binary64 percentages the source computes) is emitted and the processed
count reaches `N`. -/
theorem soft_failure_recorded_and_batch_continues
    (videos : List VideoResult) (envs : List StageEnv) (k : Nat)
    (h : envs.length = videos.length) (hk : k < videos.length)
    (hk2 : k < envs.length)
    (hok : (envs.get ⟨k, hk2⟩).vibe.ok = true)
    (hsoft : (envs.get ⟨k, hk2⟩).vibe.failed = true ∨
      jsFalsyStr (envs.get ⟨k, hk2⟩).vibe.vibe_extraction = true) :
    (⟨(videos.get ⟨k, hk⟩).videoName,
      jsOrD (envs.get ⟨k, hk2⟩).vibe.error "API returned no content"⟩ :
        FailureRecord) ∈ (batchRun videos envs).failures ∧
    (∀ e : String, (envs.get ⟨k, hk2⟩).vibe.error = some e →
      e.isEmpty = false →
      jsOrD (envs.get ⟨k, hk2⟩).vibe.error "API returned no content" = e) ∧
    progressList (batchRun videos envs).events =
      (List.range videos.length).map
        (fun i => (i + 1, jsFloorPct (i + 1) videos.length)) ∧
    (batchRun videos envs).processedCount = videos.length := by
  have hN : 0 < videos.length := Nat.lt_of_le_of_lt (Nat.zero_le k) hk
  have hzipk : k < (videos.zip envs).length := by
    rw [List.length_zip]; omega
  refine ⟨?_, ?_, progressList_batchRun videos envs h hN,
    processedCount_batchRun videos envs h hN⟩
  · have hfail : (batchRun videos envs).failures =
        (videos.zip envs).filterMap itemFailure := by
      unfold batchRun
      split
      · omega
      · simp [runFrom_failures, initState]
    rw [hfail]
    apply List.mem_filterMap.mpr
    refine ⟨(videos.zip envs).get ⟨k, hzipk⟩, List.get_mem _ _ _, ?_⟩
    have hget : (videos.zip envs).get ⟨k, hzipk⟩ =
        (videos.get ⟨k, hk⟩, envs.get ⟨k, hk2⟩) := by
      simp [List.get_eq_getElem, List.getElem_zip]
    rw [hget]
    unfold itemFailure processItem
    rcases hsoft with hs | hs <;>
      simp only [List.get_eq_getElem] at hok hs <;> simp [hok, hs]
  · intro e he hne
    simp only [List.get_eq_getElem] at he
    simp [jsOrD, he, hne]

/-- Witness for Claim C4: a one-item batch whose only item soft-fails. -/
theorem soft_failure_recorded_and_batch_continues_witness :
    (⟨([vA].get ⟨0, by decide⟩).videoName,
      jsOrD (([envSoftFail].get ⟨0, by decide⟩).vibe.error)
        "API returned no content"⟩ : FailureRecord) ∈
        (batchRun [vA] [envSoftFail]).failures ∧
    (∀ e : String, ([envSoftFail].get ⟨0, by decide⟩).vibe.error = some e →
      e.isEmpty = false →
      jsOrD (([envSoftFail].get ⟨0, by decide⟩).vibe.error)
        "API returned no content" = e) ∧
    progressList (batchRun [vA] [envSoftFail]).events =
      (List.range [vA].length).map
        (fun i => (i + 1, jsFloorPct (i + 1) [vA].length)) ∧
    (batchRun [vA] [envSoftFail]).processedCount = [vA].length :=
  soft_failure_recorded_and_batch_continues [vA] [envSoftFail] 0 rfl
    (by decide) (by decide) (by decide) (by decide)

/-- Claim C5, counterexample: at item 29 of a 50-item batch the source's
`Math.floor((29 / 50) * 100)` in binary64 gives 57 — the double closest to
`29 / 50` times 100 rounds to `57.99999999999999289…` — while the claim's
exact `floor(processed / total * 100)` is 58.  The deviating pair
`(29, 57)` is the progress event the run actually emits. -/
theorem progress_formula_float_cex :
    jsFloorPct 29 50 = 57 ∧ 29 * 100 / 50 = 58 ∧
    (29, 57) ∈ progressList (batchRun (List.replicate 50 vA)
      (List.replicate 50 envSoftFail)).events := by
  decide

/-- Claim C5 (amended): the progress after item `k` of `N` equals
`Math.floor((k / N) * 100)` computed in binary64 arithmetic — which can be
one less than the exact `floor(k * 100 / N)` — the percentage is still
non-decreasing across the run, and after the last item it equals exactly
100 (the quotient `N / N` is exactly 1.0, the product exactly 100.0, and
`setProgress(100)` also runs after the loop), for every `N ≥ 1` including
`N = 1`. -/
theorem batch_progress_monotone_and_complete
    (videos : List VideoResult) (envs : List StageEnv)
    (h : envs.length = videos.length) (hN : 0 < videos.length) :
    progressList (batchRun videos envs).events =
      (List.range videos.length).map
        (fun i => (i + 1, jsFloorPct (i + 1) videos.length)) ∧
    (∀ i j : Nat, i ≤ j →
      jsFloorPct i videos.length ≤ jsFloorPct j videos.length) ∧
    (batchRun videos envs).progress = 100 ∧
    jsFloorPct videos.length videos.length = 100 := by
  refine ⟨progressList_batchRun videos envs h hN, ?_, ?_,
    jsFloorPct_self videos.length hN⟩
  · intro i j hij
    exact jsFloorPct_mono videos.length hN i j hij
  · unfold batchRun
    split
    · omega
    · rfl

/-- Witness for the amended Claim C5 at a concrete batch of size 1. -/
theorem batch_progress_monotone_and_complete_witness :
    progressList (batchRun [vA] [envOk ["p"]]).events =
      (List.range [vA].length).map
        (fun i => (i + 1, jsFloorPct (i + 1) [vA].length)) ∧
    (∀ i j : Nat, i ≤ j →
      jsFloorPct i [vA].length ≤ jsFloorPct j [vA].length) ∧
    (batchRun [vA] [envOk ["p"]]).progress = 100 ∧
    jsFloorPct [vA].length [vA].length = 100 :=
  batch_progress_monotone_and_complete [vA] [envOk ["p"]] rfl (by decide)

/-- Claim C6: an artifact with an empty `sceneSet` or an empty media
reference is excluded before processing begins: it is not in the filtered
batch, every failure record and every stage call of the run belongs to an
eligible artifact, and the processed count never exceeds the number of
eligible artifacts (the ineligible one is not counted in the total). -/
theorem ineligible_artifact_excluded
    (results : List VideoResult) (envs : List StageEnv) (r : VideoResult)
    (hr : eligibleB r = false) :
    r ∉ results.filter eligibleB ∧
    (∀ fr ∈ (handleBatchAnalyze results envs).failures,
      ∃ v ∈ results.filter eligibleB, fr.videoName = v.videoName) ∧
    (∀ n ∈ stageCallNames (handleBatchAnalyze results envs).events,
      ∃ v ∈ results.filter eligibleB, n = v.videoName) ∧
    (handleBatchAnalyze results envs).processedCount ≤
      (results.filter eligibleB).length := by
  refine ⟨?_, ?_, ?_, ?_⟩
  · intro hmem
    have hmem2 := (List.mem_filter.mp hmem).2
    rw [hr] at hmem2
    simp at hmem2
  · intro fr hfr
    unfold handleBatchAnalyze batchRun at hfr
    split at hfr
    · simp [initState] at hfr
    · simp only [runFrom_failures, initState, List.nil_append] at hfr
      rcases List.mem_filterMap.mp hfr with ⟨ve, hve, hf⟩
      rcases ve with ⟨v, env⟩
      exact ⟨v, (List.of_mem_zip hve).1, itemFailure_name (v, env) fr hf⟩
  · intro n hn
    unfold handleBatchAnalyze batchRun at hn
    split at hn
    · simp [initState, stageCallNames_nil] at hn
    · rw [stageCallNames_append, stageCallNames_one_complete,
        List.append_nil] at hn
      rcases runFrom_stageCallNames _ _ _ _ n hn with hbase | ⟨⟨v, env⟩, hve, rfl⟩
      · rw [show initState.events = [] from rfl, stageCallNames_nil] at hbase
        simp at hbase
      · exact ⟨v, (List.of_mem_zip hve).1, rfl⟩
  · unfold handleBatchAnalyze batchRun
    split
    · simp [initState]
    · simp only [runFrom_processedCount, initState]
      split
      · simp
      · rw [List.length_zip]
        omega

/-- Witness for Claim C6: a batch containing one eligible artifact, one
with no scenes, and one with no media. -/
theorem ineligible_artifact_excluded_witness :
    (vNoScenes ∉ [vA, vNoScenes, vNoMedia].filter eligibleB ∧
      (∀ fr ∈ (handleBatchAnalyze [vA, vNoScenes, vNoMedia]
          [envOk ["p"]]).failures,
        ∃ v ∈ [vA, vNoScenes, vNoMedia].filter eligibleB,
          fr.videoName = v.videoName) ∧
      (∀ n ∈ stageCallNames (handleBatchAnalyze [vA, vNoScenes, vNoMedia]
          [envOk ["p"]]).events,
        ∃ v ∈ [vA, vNoScenes, vNoMedia].filter eligibleB, n = v.videoName) ∧
      (handleBatchAnalyze [vA, vNoScenes, vNoMedia]
          [envOk ["p"]]).processedCount ≤
        ([vA, vNoScenes, vNoMedia].filter eligibleB).length) :=
  ineligible_artifact_excluded [vA, vNoScenes, vNoMedia] [envOk ["p"]]
    vNoScenes (by decide)

/-! ### Canonical export encoding of numeric fields

The export stringifier (`generateAndDownloadCSV` lines 127-133,
`exportToCSV` lines 105-111, `JsonOutput` lines 126-136) runs
`JSON.stringify` with a replacer turning every integral number `v` into
the string `v.toFixed(1)`, then strips the quotes from every serialized
string that fully matches `-?\d+\.\d+`.  The decimal text of a number is
modelled at digit level: `DecText` carries the sign, the integer-part
digits and the fraction digits (both least significant first). -/

/-- The decimal text of a serialized number. -/
structure DecText where
  neg : Bool
  intDs : List Nat
  fracDs : List Nat
deriving DecidableEq

/-- Serialize a `JNum` to decimal text.  An integral value (`e = 0`,
which under canonicity is exactly `Number.isInteger`) goes through
`toFixed(1)`: its own digits with the single fraction digit `0`.  A
non-integral value renders its own digits split at the decimal point,
zero-padded on the fraction side, exactly as JavaScript prints a
canonical decimal. -/
def encodeNum (n : JNum) : DecText :=
  if n.e = 0 then
    ⟨decide (n.m < 0), natDigits n.m.natAbs, [0]⟩
  else
    let ds := natDigits n.m.natAbs
    ⟨decide (n.m < 0), ds.drop n.e, ds.take n.e ++ List.replicate (n.e - ds.length) 0⟩

/-- Decode decimal text back to its numeric value (what `JSON.parse`
reconstructs from the unquoted numeral). -/
def DecText.val (d : DecText) : ℚ :=
  (if d.neg then (-1 : ℚ) else 1) *
    (((Nat.ofDigits 10 d.intDs : ℕ) : ℚ) +
      ((Nat.ofDigits 10 d.fracDs : ℕ) : ℚ) / (10 : ℚ) ^ d.fracDs.length)

/-- The character of a decimal digit. -/
def digitChar (d : Nat) : Char := Char.ofNat (48 + d)

/-- Big-endian rendering of a digit list, `"0"` when empty. -/
def renderDigits (ds : List Nat) : String :=
  if ds.isEmpty then "0" else String.mk (ds.reverse.map digitChar)

/-- The rendered decimal numeral. -/
def DecText.render (d : DecText) : String :=
  (if d.neg then "-" else "") ++ renderDigits d.intDs ++ "." ++ renderDigits d.fracDs

theorem digitsFuel_eq (fuel : Nat) :
    ∀ n : Nat, n ≤ fuel → digitsFuel fuel n = Nat.digits 10 n := by
  induction fuel with
  | zero =>
      intro n hn
      have : n = 0 := by omega
      subst this
      simp [digitsFuel]
  | succ fuel ih =>
      intro n hn
      cases n with
      | zero => simp [digitsFuel]
      | succ n =>
          rw [digitsFuel, Nat.digits_def' (by norm_num : (1:Nat) < 10) (Nat.succ_pos n)]
          congr 1
          apply ih
          have : (n + 1) / 10 < n + 1 := Nat.div_lt_self (Nat.succ_pos n) (by norm_num)
          omega

theorem natDigits_eq (n : Nat) : natDigits n = Nat.digits 10 n :=
  digitsFuel_eq n n le_rfl

theorem ofDigits_replicate_zero (b k : Nat) :
    Nat.ofDigits b (List.replicate k 0) = 0 := by
  induction k with
  | zero => rfl
  | succ k ih => simp [List.replicate_succ, Nat.ofDigits_cons, ih]

theorem cast_natAbs_q (m : Int) : ((m.natAbs : ℚ)) = |(m : ℚ)| := by
  rw [Int.cast_natAbs, Int.cast_abs]

/-- Round trip of the canonical numeric encoding: decoding the decimal
text reconstructs the value, for every finite decimal. -/
theorem encodeNum_val (n : JNum) : (encodeNum n).val = n.toRat := by
  by_cases he : n.e = 0
  · unfold encodeNum DecText.val JNum.toRat
    rw [if_pos he, he]
    simp only [natDigits_eq]
    rw [show Nat.ofDigits 10 [0] = 0 by rfl]
    rw [Nat.ofDigits_digits]
    rcases lt_or_le n.m 0 with hm | hm
    · have hb : decide (n.m < 0) = true := decide_eq_true hm
      have hc : (n.m : ℚ) < 0 := by exact_mod_cast hm
      simp only [hb, if_true, pow_zero]
      rw [cast_natAbs_q, abs_of_neg hc]
      push_cast
      ring
    · have hb : decide (n.m < 0) = false := by
        simp [decide_eq_false_iff_not, not_lt, hm]
      have hc : (0:ℚ) ≤ (n.m : ℚ) := by exact_mod_cast hm
      simp only [hb, Bool.false_eq_true, if_false, pow_zero]
      rw [cast_natAbs_q, abs_of_nonneg hc]
      push_cast
      ring
  · have hint : (encodeNum n).intDs = (Nat.digits 10 n.m.natAbs).drop n.e := by
      unfold encodeNum
      rw [if_neg he, natDigits_eq]
    have hneg : (encodeNum n).neg = decide (n.m < 0) := by
      unfold encodeNum
      split <;> rfl
    have hfv : Nat.ofDigits 10 (encodeNum n).fracDs =
        Nat.ofDigits 10 ((Nat.digits 10 n.m.natAbs).take n.e) := by
      unfold encodeNum
      rw [if_neg he, natDigits_eq]
      simp [Nat.ofDigits_append, ofDigits_replicate_zero]
    have hfl : (encodeNum n).fracDs.length = n.e := by
      unfold encodeNum
      rw [if_neg he, natDigits_eq]
      simp only [List.length_append, List.length_take, List.length_replicate]
      omega
    unfold DecText.val JNum.toRat
    rw [hint, hneg, hfv, hfl]
    have h10 : (10 : ℚ) ^ n.e ≠ 0 := pow_ne_zero _ (by norm_num)
    have key : ((n.m.natAbs : ℚ)) =
        ((Nat.ofDigits 10 ((Nat.digits 10 n.m.natAbs).take n.e) : ℕ) : ℚ) +
          (10 : ℚ) ^ n.e *
            ((Nat.ofDigits 10 ((Nat.digits 10 n.m.natAbs).drop n.e) : ℕ) : ℚ) := by
      set ds := Nat.digits 10 n.m.natAbs with hds
      rcases le_or_lt n.e ds.length with hle | hlt
      · have h2 : (Nat.ofDigits 10 ds : ℕ) =
            Nat.ofDigits 10 (ds.take n.e) +
              10 ^ (ds.take n.e).length * Nat.ofDigits 10 (ds.drop n.e) := by
          conv_lhs => rw [← List.take_append_drop n.e ds]
          exact Nat.ofDigits_append
        have h3 : (ds.take n.e).length = n.e := by
          simp only [List.length_take]
          omega
        rw [h3] at h2
        have h4 : (Nat.ofDigits 10 ds : ℕ) = n.m.natAbs := by
          rw [hds]
          exact Nat.ofDigits_digits 10 _
        rw [h4] at h2
        exact_mod_cast h2
      · have h5 : ds.drop n.e = [] := List.drop_eq_nil_of_le (le_of_lt hlt)
        have h6 : ds.take n.e = ds := List.take_of_length_le (le_of_lt hlt)
        have h4 : (Nat.ofDigits 10 ds : ℕ) = n.m.natAbs := by
          rw [hds]
          exact Nat.ofDigits_digits 10 _
        rw [h5, h6, h4]
        simp
    rcases lt_or_le n.m 0 with hm | hm
    · have hb : decide (n.m < 0) = true := decide_eq_true hm
      have hc : (n.m : ℚ) < 0 := by exact_mod_cast hm
      have hmq : (n.m : ℚ) = -(n.m.natAbs : ℚ) := by
        rw [cast_natAbs_q, abs_of_neg hc]
        ring
      simp only [hb, if_true]
      rw [hmq, key]
      field_simp
      ring
    · have hb : decide (n.m < 0) = false := by
        simp [decide_eq_false_iff_not, not_lt, hm]
      have hc : (0:ℚ) ≤ (n.m : ℚ) := by exact_mod_cast hm
      have hmq : (n.m : ℚ) = (n.m.natAbs : ℚ) := by
        rw [cast_natAbs_q, abs_of_nonneg hc]
      simp only [hb, Bool.false_eq_true, if_false]
      rw [hmq, key]
      field_simp
      ring

/-- Under canonicity, an integral VALUE forces `e = 0`, hence the
`toFixed(1)` path: exactly one fraction digit `0`. -/
theorem encodeNum_fracDs_of_integral (n : JNum) (hc : n.Canonical)
    (hd : (10 : Int) ^ n.e ∣ n.m) : (encodeNum n).fracDs = [0] := by
  have he : n.e = 0 := by
    rcases hc with h | h
    · exact h
    · by_contra hne
      exact h (dvd_trans (dvd_pow_self 10 hne) hd)
  unfold encodeNum
  rw [if_pos he]

/-- Claim C7: numeric canonicalization of the export encoding.  An
integral value serializes with exactly one decimal place (`2` renders as
`"2.0"`, `0` as `"0.0"`) while a non-integral value serializes unchanged
(`1.5` as `"1.5"`), and decoding the serialized decimal text reconstructs
the original numeric value: encode-then-decode is the identity. -/
theorem numeric_canonicalization_round_trip (n : JNum) (h : n.Canonical) :
    (encodeNum n).val = n.toRat ∧
    ((10 : Int) ^ n.e ∣ n.m → (encodeNum n).fracDs = [0]) ∧
    DecText.render (encodeNum ⟨2, 0⟩) = "2.0" ∧
    DecText.render (encodeNum ⟨15, 1⟩) = "1.5" ∧
    DecText.render (encodeNum ⟨0, 0⟩) = "0.0" :=
  ⟨encodeNum_val n, fun hd => encodeNum_fracDs_of_integral n h hd,
    by decide, by decide, by decide⟩

/-- Witness for Claim C7 at the non-integral value `1.5 = 15 / 10`. -/
theorem numeric_canonicalization_round_trip_witness :
    (encodeNum ⟨15, 1⟩).val = JNum.toRat ⟨15, 1⟩ ∧
    ((10 : Int) ^ (⟨15, 1⟩ : JNum).e ∣ (⟨15, 1⟩ : JNum).m →
      (encodeNum ⟨15, 1⟩).fracDs = [0]) ∧
    DecText.render (encodeNum ⟨2, 0⟩) = "2.0" ∧
    DecText.render (encodeNum ⟨15, 1⟩) = "1.5" ∧
    DecText.render (encodeNum ⟨0, 0⟩) = "0.0" :=
  numeric_canonicalization_round_trip ⟨15, 1⟩ (by decide)

/-! ### Quote stripping in the export encoding (Claim C9) -/

/-- An atomic JSON value of the export record. -/
inductive JAtom where
  | num (v : JNum)
  | str (s : String)
  | bool (b : Bool)
deriving DecidableEq

/-- A serialized field: either a quoted JSON string or raw (unquoted)
text, i.e. a JSON number/boolean. -/
inductive JTok where
  | quoted (s : String)
  | raw (s : String)
deriving DecidableEq

/-- The `JSON.stringify` replacer of the export encoders: an integral
number becomes the STRING `value.toFixed(1)`; everything else is
returned unchanged. -/
def replacerAtom : JAtom → JAtom
  | .num v => if v.e = 0 then .str (DecText.render (encodeNum v)) else .num v
  | a => a

/-- Serialization of one atom: strings are quoted, numbers and booleans
are raw.  (In the export pipeline a number only reaches this point when
the replacer left it alone, i.e. when it is non-integral.) -/
def stringifyAtom : JAtom → JTok
  | .num v => .raw (DecText.render (encodeNum v))
  | .str s => .quoted s
  | .bool b => .raw (if b then "true" else "false")

/-- Full match of the regex `-?\d+\.\d+`: an optional minus, one or more
digits, a dot, one or more digits, nothing else. -/
def matchesDecimal (s : String) : Bool :=
  let cs := match s.data with
    | '-' :: t => t
    | l => l
  let ip := cs.takeWhile Char.isDigit
  let rest := cs.dropWhile Char.isDigit
  match ip, rest with
  | [], _ => false
  | _ :: _, '.' :: fp => !fp.isEmpty && fp.all Char.isDigit
  | _, _ => false

/-- The `.replace(/"(-?\d+\.\d+)"/g, '$1')` step: a quoted token whose
entire content matches the decimal pattern loses its quotes. -/
def unquoteTok : JTok → JTok
  | .quoted s => if matchesDecimal s then .raw s else .quoted s
  | t => t

/-- The complete per-field export encoding: replacer, stringify, then
quote stripping. -/
def encodeAtom (a : JAtom) : JTok := unquoteTok (stringifyAtom a)

/-- Whether a serialized token still reads as a JSON string. -/
def JTok.isStringTyped : JTok → Bool
  | .quoted _ => true
  | .raw _ => false

/-- Claim C9: the quote-stripping step applied after stringification
removes the surrounding quotes from any string field whose entire value
matches the decimal pattern: if an artifact's `name` or `music_file` is a
string such as `"1.5"`, the exported JSON renders that field unquoted,
changing its JSON type from string to number. -/
theorem decimal_string_unquoted_in_export (j : OutputJson)
    (hname : matchesDecimal j.name = true)
    (hmusic : matchesDecimal j.music_file = true) :
    encodeAtom (replacerAtom (JAtom.str j.name)) = JTok.raw j.name ∧
    encodeAtom (replacerAtom (JAtom.str j.music_file)) = JTok.raw j.music_file ∧
    (stringifyAtom (replacerAtom (JAtom.str j.name))).isStringTyped = true ∧
    (encodeAtom (replacerAtom (JAtom.str j.name))).isStringTyped = false ∧
    (encodeAtom (replacerAtom (JAtom.str j.music_file))).isStringTyped = false := by
  unfold encodeAtom stringifyAtom replacerAtom unquoteTok JTok.isStringTyped
  simp [hname, hmusic]

/-- An export record whose `name` and `music_file` hold decimal-shaped
strings. -/
def jsonDecimalNames : OutputJson :=
  { jsonWithScenes "1.5" [] with music_file := "2.75" }

/-- Witness for Claim C9 at the record with `name = "1.5"` and
`music_file = "2.75"`. -/
theorem decimal_string_unquoted_in_export_witness :
    encodeAtom (replacerAtom (JAtom.str jsonDecimalNames.name)) =
      JTok.raw jsonDecimalNames.name ∧
    encodeAtom (replacerAtom (JAtom.str jsonDecimalNames.music_file)) =
      JTok.raw jsonDecimalNames.music_file ∧
    (stringifyAtom (replacerAtom (JAtom.str jsonDecimalNames.name))).isStringTyped =
      true ∧
    (encodeAtom (replacerAtom (JAtom.str jsonDecimalNames.name))).isStringTyped =
      false ∧
    (encodeAtom (replacerAtom
      (JAtom.str jsonDecimalNames.music_file))).isStringTyped = false :=
  decimal_string_unquoted_in_export jsonDecimalNames (by decide) (by decide)

/-! ### Result merge (`handleBatchAnalysisComplete`, Claim C8) -/

/-- The history-side overwrite of the enrichment fields. -/
def applyAnalysisHistory (item : HistoryItem) (a : Analysis) : HistoryItem :=
  { item with jsonData :=
    { item.jsonData with
        vibe_description := some a.vibe
        image_prompts := some a.imagePrompts
        video_prompt := some a.videoPrompt } }

/-- The `setResults` updater of `handleBatchAnalysisComplete` (lines
188-206): map over the result set, overwrite the enrichment fields of
each result whose stable `id` matches an analysis. -/
def handleBatchAnalysisCompleteResults (analyses : List Analysis)
    (results : List VideoResult) : List VideoResult :=
  results.map fun r =>
    match analyses.find? (fun a => a.resultId == r.id) with
    | some a => applyAnalysis r a
    | none => r

/-- The `setHistory` updater of `handleBatchAnalysisComplete` (lines
208-228): map over history, match an entry to a live result by
`videoName`, then to an analysis by that result's id. -/
def handleBatchAnalysisCompleteHistory (analyses : List Analysis)
    (results : List VideoResult) (history : List HistoryItem) :
    List HistoryItem :=
  history.map fun item =>
    match results.find? (fun r => r.videoName == item.videoName) with
    | some r =>
        match analyses.find? (fun a => a.resultId == r.id) with
        | some a => applyAnalysisHistory item a
        | none => item
    | none => item

theorem find?_erase_of_neg {α : Type} (p : α → Bool) (x : α)
    (hx : p x = false) :
    ∀ l1 l2 : List α, List.find? p (l1 ++ x :: l2) = List.find? p (l1 ++ l2) := by
  intro l1
  induction l1 with
  | nil => intro l2; simp [List.find?, hx]
  | cons y l1 ih =>
      intro l2
      by_cases hy : p y <;> simp [List.find?, hy, ih]

/-- Claim C8: Result Merge is a pure overwrite of the three enrichment
fields on matched entries (matched by stable `id` in the result set, by
`displayName` in history), leaves every field of every unmatched entry
unchanged, never changes the number of entries of either collection, and
is a no-op for any analysis whose target cannot be found. -/
theorem result_merge_overwrites_only_enrichment
    (analyses as1 as2 : List Analysis) (a : Analysis)
    (results : List VideoResult) (history : List HistoryItem)
    (i : Nat) (hi : i < results.length) (j : Nat) (hj : j < history.length)
    (ha : ∀ r ∈ results, (a.resultId == r.id) = false) :
    (handleBatchAnalysisCompleteResults analyses results).length =
      results.length ∧
    (handleBatchAnalysisCompleteHistory analyses results history).length =
      history.length ∧
    (handleBatchAnalysisCompleteResults analyses results).get
        ⟨i, by simpa [handleBatchAnalysisCompleteResults] using hi⟩ =
      (match analyses.find?
          (fun x => x.resultId == (results.get ⟨i, hi⟩).id) with
       | some a0 => applyAnalysis (results.get ⟨i, hi⟩) a0
       | none => results.get ⟨i, hi⟩) ∧
    (handleBatchAnalysisCompleteHistory analyses results history).get
        ⟨j, by simpa [handleBatchAnalysisCompleteHistory] using hj⟩ =
      (match results.find?
          (fun r => r.videoName == (history.get ⟨j, hj⟩).videoName) with
       | some r =>
           match analyses.find? (fun x => x.resultId == r.id) with
           | some a0 => applyAnalysisHistory (history.get ⟨j, hj⟩) a0
           | none => history.get ⟨j, hj⟩
       | none => history.get ⟨j, hj⟩) ∧
    (∀ (r : VideoResult) (a0 : Analysis),
      (applyAnalysis r a0).id = r.id ∧
      (applyAnalysis r a0).videoName = r.videoName ∧
      (applyAnalysis r a0).file = r.file ∧
      (applyAnalysis r a0).jsonData.name = r.jsonData.name ∧
      (applyAnalysis r a0).jsonData.clips = r.jsonData.clips ∧
      (applyAnalysis r a0).jsonData.transitions = r.jsonData.transitions ∧
      (applyAnalysis r a0).jsonData.logo_outro = r.jsonData.logo_outro ∧
      (applyAnalysis r a0).jsonData.music_file = r.jsonData.music_file ∧
      (applyAnalysis r a0).jsonData.fade_in_duration =
        r.jsonData.fade_in_duration ∧
      (applyAnalysis r a0).jsonData.fade_out_duration =
        r.jsonData.fade_out_duration ∧
      (applyAnalysis r a0).jsonData.scenes = r.jsonData.scenes ∧
      (applyAnalysis r a0).jsonData.vibe_description = some a0.vibe ∧
      (applyAnalysis r a0).jsonData.image_prompts = some a0.imagePrompts ∧
      (applyAnalysis r a0).jsonData.video_prompt = some a0.videoPrompt) ∧
    handleBatchAnalysisCompleteResults (as1 ++ a :: as2) results =
      handleBatchAnalysisCompleteResults (as1 ++ as2) results ∧
    handleBatchAnalysisCompleteHistory (as1 ++ a :: as2) results history =
      handleBatchAnalysisCompleteHistory (as1 ++ as2) results history := by
  refine ⟨?_, ?_, ?_, ?_, ?_, ?_, ?_⟩
  · simp [handleBatchAnalysisCompleteResults]
  · simp [handleBatchAnalysisCompleteHistory]
  · simp [handleBatchAnalysisCompleteResults, List.get_eq_getElem,
      List.getElem_map]
  · simp [handleBatchAnalysisCompleteHistory, List.get_eq_getElem,
      List.getElem_map]
  · intro r a0
    refine ⟨rfl, rfl, rfl, rfl, rfl, rfl, rfl, rfl, rfl, rfl, rfl, rfl, rfl, rfl⟩
  · unfold handleBatchAnalysisCompleteResults
    apply List.map_congr_left
    intro r hr
    rw [find?_erase_of_neg _ a (ha r hr)]
  · unfold handleBatchAnalysisCompleteHistory
    apply List.map_congr_left
    intro item _
    rcases hfind : results.find? (fun r => r.videoName == item.videoName) with
      _ | r0
    · simp only [hfind]
    · have hr0 : r0 ∈ results := List.mem_of_find?_eq_some hfind
      simp only [hfind]
      rw [find?_erase_of_neg _ a (ha r0 hr0)]

/-- An analysis matching `vA` by stable id. -/
def aMatch : Analysis := ⟨"a", "vibe2", ["ip"], "vp2"⟩

/-- An analysis whose `resultId` matches no result. -/
def aOrphan : Analysis := ⟨"zz", "x", [], "y"⟩

/-- A history entry sharing `vA`'s display name. -/
def hItem : HistoryItem := ⟨"h1", 5, "va", jsonWithScenes "va" [sceneOne]⟩

/-- Witness for Claim C8 at a concrete result set, history and analysis
list, with `aOrphan` as the target-less analysis. -/
theorem result_merge_overwrites_only_enrichment_witness :
    (handleBatchAnalysisCompleteResults [aMatch] [vA]).length = [vA].length ∧
    (handleBatchAnalysisCompleteHistory [aMatch] [vA] [hItem]).length =
      [hItem].length ∧
    (handleBatchAnalysisCompleteResults [aMatch] [vA]).get ⟨0, by decide⟩ =
      (match ([aMatch] : List Analysis).find?
          (fun x => x.resultId == (([vA] : List VideoResult).get
            ⟨0, by decide⟩).id) with
       | some a0 => applyAnalysis (([vA] : List VideoResult).get ⟨0, by decide⟩) a0
       | none => ([vA] : List VideoResult).get ⟨0, by decide⟩) ∧
    (handleBatchAnalysisCompleteHistory [aMatch] [vA] [hItem]).get
        ⟨0, by decide⟩ =
      (match ([vA] : List VideoResult).find?
          (fun r => r.videoName == (([hItem] : List HistoryItem).get
            ⟨0, by decide⟩).videoName) with
       | some r =>
           match ([aMatch] : List Analysis).find?
              (fun x => x.resultId == r.id) with
           | some a0 => applyAnalysisHistory
              (([hItem] : List HistoryItem).get ⟨0, by decide⟩) a0
           | none => ([hItem] : List HistoryItem).get ⟨0, by decide⟩
       | none => ([hItem] : List HistoryItem).get ⟨0, by decide⟩) ∧
    (∀ (r : VideoResult) (a0 : Analysis),
      (applyAnalysis r a0).id = r.id ∧
      (applyAnalysis r a0).videoName = r.videoName ∧
      (applyAnalysis r a0).file = r.file ∧
      (applyAnalysis r a0).jsonData.name = r.jsonData.name ∧
      (applyAnalysis r a0).jsonData.clips = r.jsonData.clips ∧
      (applyAnalysis r a0).jsonData.transitions = r.jsonData.transitions ∧
      (applyAnalysis r a0).jsonData.logo_outro = r.jsonData.logo_outro ∧
      (applyAnalysis r a0).jsonData.music_file = r.jsonData.music_file ∧
      (applyAnalysis r a0).jsonData.fade_in_duration =
        r.jsonData.fade_in_duration ∧
      (applyAnalysis r a0).jsonData.fade_out_duration =
        r.jsonData.fade_out_duration ∧
      (applyAnalysis r a0).jsonData.scenes = r.jsonData.scenes ∧
      (applyAnalysis r a0).jsonData.vibe_description = some a0.vibe ∧
      (applyAnalysis r a0).jsonData.image_prompts = some a0.imagePrompts ∧
      (applyAnalysis r a0).jsonData.video_prompt = some a0.videoPrompt) ∧
    handleBatchAnalysisCompleteResults ([] ++ aOrphan :: []) [vA] =
      handleBatchAnalysisCompleteResults ([] ++ []) [vA] ∧
    handleBatchAnalysisCompleteHistory ([] ++ aOrphan :: []) [vA] [hItem] =
      handleBatchAnalysisCompleteHistory ([] ++ []) [vA] [hItem] :=
  result_merge_overwrites_only_enrichment [aMatch] [] [] aOrphan [vA] [hItem]
    0 (by decide) 0 (by decide) (by decide)

/-! ### Emergency checkpoint on batch-level failure (Claim C10) -/

/-- `generateAndDownloadCSV` (App, lines 88-89): the export helper
returns immediately when the export list is empty; otherwise exactly one
CSV download happens, carrying the exported results and the filename
suffix.  The observable download is modelled as the optional payload;
the CSV text construction and DOM click are I/O beyond the early
return. -/
def generateAndDownloadCSV (resultsToExport : List VideoResult)
    (filenameSuffix : String) : Option (List VideoResult × String) :=
  if resultsToExport.length = 0 then none
  else some (resultsToExport, filenameSuffix)

/-- The outer error handler of `handleBatchAnalyze` (lines 224-241): when
a batch-level exception escapes the per-item handling, the emergency
export `onAutoSaveCSV(analyzedResults, '-partial-error-recovery')` is
invoked only under the guard `analyzedResults.length > 0`.  The returned
list is the sequence of export invocations the handler makes. -/
def batchErrorHandler (analyzedResults : List VideoResult) :
    List (List VideoResult × String) :=
  if analyzedResults.length > 0 then
    [(analyzedResults, "-partial-error-recovery")]
  else []

/-- Claim C10: the emergency checkpoint export is invoked iff at least
one enrichment has been accumulated; with an empty accumulator neither
the guarded handler nor the export helper produces any observable export
(the handler guards on non-emptiness and the helper returns immediately
for an empty list). -/
theorem emergency_checkpoint_iff_nonempty (acc : List VideoResult)
    (s : String) (hne : acc ≠ []) :
    (batchErrorHandler acc ≠ [] ↔ acc ≠ []) ∧
    batchErrorHandler [] = [] ∧
    generateAndDownloadCSV [] s = none ∧
    batchErrorHandler acc = [(acc, "-partial-error-recovery")] ∧
    generateAndDownloadCSV acc "-partial-error-recovery" =
      some (acc, "-partial-error-recovery") := by
  unfold batchErrorHandler generateAndDownloadCSV
  rcases acc with _ | ⟨x, rest⟩
  · exact absurd rfl hne
  · simp

/-- Witness for Claim C10 at a one-element accumulator. -/
theorem emergency_checkpoint_iff_nonempty_witness :
    (batchErrorHandler [vA] ≠ [] ↔ ([vA] : List VideoResult) ≠ []) ∧
    batchErrorHandler [] = [] ∧
    generateAndDownloadCSV [] "-x" = none ∧
    batchErrorHandler [vA] = [([vA], "-partial-error-recovery")] ∧
    generateAndDownloadCSV [vA] "-partial-error-recovery" =
      some ([vA], "-partial-error-recovery") :=
  emergency_checkpoint_iff_nonempty [vA] "-x" (by decide)
